import Mathlib

/-!
Shallow embedding of the protocol core of `contracts/AdvancedNFT.sol` and
`contracts/SimpleWallet.sol`.

Modelling conventions:
* `Address` and 32-byte words (`B32`) are natural numbers; the zero address and
  `bytes32(0)` are the number `0`.
* keccak256 over the various abi encodings used by the contract is not
  computable here, so each distinct encoding shape is an abstract function
  collected in `HashEnv` (for the NFT contract) and `WalletEnv` (for the
  wallet).  Theorems that need collision-freeness or signature soundness take
  them as explicit hypotheses, discharged on concrete instances in witnesses.
* Solidity mappings are total functions with the solidity default value.
* A reverting call is an `Except.error`; the trace semantics `run` leaves the
  state unchanged on error, which models the all-or-nothing transaction
  semantics of the EVM (including rollback of earlier writes in the same call).
* External ETH transfers (`call{value: ...}`) are modelled as succeeding
  exactly when the contract balance covers the amount (externally-owned
  recipients); the balance field tracks `address(this).balance`.
* ERC721 `_safeMint(to, id)` is modelled by its requirements visible here:
  the recipient is nonzero and the token id is not already minted; the
  mint-records list plays the role of the ERC721 ownership store.
* The fields `mintedTokens`, `claimCount`, `releasedOf`, `totalReleased` and
  `totalReceived` are history instrumentation (ghost state): they record the
  token records created, the number of successful airdrop claims per index,
  and the cumulative payment flows, and are never read by the contract code.
-/

namespace AdvancedNFT

/-- Ethereum addresses, modelled as naturals; `0` is the zero address. -/
abbrev Address := Nat

/-- 32-byte words (`bytes32` / `uint256`), modelled as naturals. -/
abbrev B32 := Nat

/-- Pointwise update of a map modelled as a total function. -/
def upd {α : Type} (f : Nat → α) (i : Nat) (v : α) : Nat → α :=
  fun j => if j = i then v else f j

theorem upd_same {α : Type} (f : Nat → α) (i : Nat) (v : α) : upd f i v i = v := by
  simp [upd]

theorem upd_other {α : Type} (f : Nat → α) (i : Nat) (v : α) (j : Nat) (h : j ≠ i) :
    upd f i v j = f j := by
  simp [upd, h]

/-- Sale phases, from `enum SaleState { Closed, Presale, PublicSale, SoldOut }`. -/
inductive SaleState
  | Closed | Presale | PublicSale | SoldOut
deriving DecidableEq, Repr

/-- Rarity tiers, from `enum Rarity { Common, Uncommon, Rare, Legendary }`. -/
inductive Rarity
  | Common | Uncommon | Rare | Legendary
deriving DecidableEq, Repr

/-- Revert reasons of the embedded operations, one per `require` site. -/
inductive Err
  | WrongPhase | AlreadyCommitted | NoCommit | TooEarly | Expired | BadSecret
  | InvalidProof | AlreadyClaimed | WrongPayment | EscrowMismatch | SoldOut
  | NotOwner | RecipientZero | NotExpired | RefundFailed | NoFunds
  | NothingToWithdraw | TransferFailed | MintToZero | DuplicateToken
deriving DecidableEq, Repr

/-- `uint256 public constant MAX_SUPPLY = 1000`. -/
def MAX_SUPPLY : Nat := 1000

/-- `uint256 public constant MINT_PRICE = 0.01 ether` (in wei). -/
def MINT_PRICE : Nat := 10000000000000000

/-- `uint256 public constant REVEAL_DELAY = 10`. -/
def REVEAL_DELAY : Nat := 10

/-- `uint256 public constant REVEAL_WINDOW = 7200`. -/
def REVEAL_WINDOW : Nat := 7200

/-- Abstract keccak256 instances, one per abi-encoding shape used by the
contract.  Each stands for a fixed collision-resistant function. -/
structure HashEnv where
  /-- `keccak256(abi.encode(secret))` — the commit/reveal binding. -/
  keccakEnc : B32 → B32
  /-- `keccak256(abi.encodePacked(index, msg.sender))` — the Merkle leaf. -/
  keccakLeaf : Nat → Address → B32
  /-- `keccak256(abi.encodePacked(a, b))` — an inner Merkle node. -/
  keccakNode : B32 → B32 → B32
  /-- `keccak256(abi.encodePacked(blockhash(block.number-1), to, totalMinted, secret))`. -/
  keccakEntropy : B32 → Address → Nat → B32 → B32
  /-- `keccak256(abi.encodePacked(randomHash, "RARITY"))`. -/
  keccakRarity : B32 → B32

/-- OpenZeppelin `MerkleProof._hashPair`: hash the sorted pair. -/
def hashPair (env : HashEnv) (a b : B32) : B32 :=
  if a < b then env.keccakNode a b else env.keccakNode b a

/-- OpenZeppelin `MerkleProof.processProof`. -/
def processProof (env : HashEnv) (proof : List B32) (leaf : B32) : B32 :=
  proof.foldl (hashPair env) leaf

/-- OpenZeppelin `MerkleProof.verify`. -/
def merkleVerify (env : HashEnv) (proof : List B32) (root leaf : B32) : Bool :=
  processProof env proof leaf = root

/-- `struct Commit { bytes32 hash; uint256 blockNumber; }`; the commitment
exists iff `hash != bytes32(0)`. -/
structure Commit where
  hash : B32
  blockNumber : Nat
deriving DecidableEq, Repr

/-- OpenZeppelin `BitMaps.get`: bucket `index >> 8`, bit `index & 0xff`. -/
def bitGet (bm : Nat → Nat) (index : Nat) : Bool :=
  (bm (index / 256)).testBit (index % 256)

/-- OpenZeppelin `BitMaps.set`. -/
def bitSet (bm : Nat → Nat) (index : Nat) : Nat → Nat :=
  upd bm (index / 256) (bm (index / 256) ||| (1 <<< (index % 256)))

/-- `_earliestReveal`: `c.blockNumber + REVEAL_DELAY`. -/
def earliestReveal (c : Commit) : Nat := c.blockNumber + REVEAL_DELAY

/-- `_expiryBlock`: `c.blockNumber + REVEAL_DELAY + REVEAL_WINDOW`. -/
def expiryBlock (c : Commit) : Nat := c.blockNumber + REVEAL_DELAY + REVEAL_WINDOW

/-- Rarity tier of a roll in `[0, 10000)`, from the threshold chain in
`_mintRandom`. -/
def rarityOf (roll : Nat) : Rarity :=
  if roll < 10 then Rarity.Legendary
  else if roll < 500 then Rarity.Rare
  else if roll < 2500 then Rarity.Uncommon
  else Rarity.Common

/-- Contract storage of `AdvancedNFT`, together with history instrumentation
(ghost fields, see the file header). -/
structure State where
  owner : Address
  merkleRoot : B32
  saleState : SaleState
  totalMinted : Nat
  tokenRarity : Nat → Rarity
  airdropCommits : Address → Commit
  publicCommits : Address → Commit
  publicEscrow : Address → Nat
  claimedBitmap : Nat → Nat
  claimedMap : Nat → Bool
  useBitmapForAirdrop : Bool
  tokenMatrix : Nat → Nat
  contributors : List Address
  shares : Address → Nat
  totalShares : Nat
  withdrawBalance : Address → Nat
  balance : Nat
  mintedTokens : List (Nat × Address)
  claimCount : Nat → Nat
  releasedOf : Address → Nat
  totalReleased : Nat
  totalReceived : Nat

/-- Slot resolution of `_mintRandom`, exactly as written in the source:
`(tokenMatrix[i] == 0 && i < MAX_SUPPLY) ? i : tokenMatrix[i]`. -/
def slotId (tm : Nat → Nat) (i : Nat) : Nat :=
  if tm i = 0 ∧ i < MAX_SUPPLY then i else tm i

/-- Mint entropy: `keccak256(abi.encodePacked(blockhash(block.number-1), to,
totalMinted, secret))`. -/
def mintEntropy (env : HashEnv) (pbh : B32) (toAddr : Address) (secret : B32)
    (s : State) : B32 :=
  env.keccakEntropy pbh toAddr s.totalMinted secret

/-- Drawn slot: `uint256(randomHash) % remaining`. -/
def mintSlot (env : HashEnv) (pbh : B32) (toAddr : Address) (secret : B32)
    (s : State) : Nat :=
  mintEntropy env pbh toAddr secret s % (MAX_SUPPLY - s.totalMinted)

/-- Assigned token id of the draw. -/
def mintAssigned (env : HashEnv) (pbh : B32) (toAddr : Address) (secret : B32)
    (s : State) : Nat :=
  slotId s.tokenMatrix (mintSlot env pbh toAddr secret s)

/-- Rarity roll: `uint256(keccak256(abi.encodePacked(randomHash, "RARITY"))) % 10000`. -/
def mintRoll (env : HashEnv) (pbh : B32) (toAddr : Address) (secret : B32)
    (s : State) : Nat :=
  env.keccakRarity (mintEntropy env pbh toAddr secret s) % 10000

/-- State produced by a successful `_mintRandom`: the last live slot's
occupant is written over the drawn slot, the assigned id gets its rarity, the
mint is recorded, and the sale closes at the supply cap. -/
def mintResult (env : HashEnv) (pbh : B32) (toAddr : Address) (secret : B32)
    (s : State) : State :=
  { s with
    tokenMatrix := upd s.tokenMatrix (mintSlot env pbh toAddr secret s)
      (slotId s.tokenMatrix (MAX_SUPPLY - s.totalMinted - 1)),
    tokenRarity := upd s.tokenRarity (mintAssigned env pbh toAddr secret s)
      (rarityOf (mintRoll env pbh toAddr secret s)),
    totalMinted := s.totalMinted + 1,
    mintedTokens := s.mintedTokens ++ [(mintAssigned env pbh toAddr secret s, toAddr)],
    saleState :=
      if s.totalMinted + 1 ≥ MAX_SUPPLY then SaleState.SoldOut else s.saleState }

/-- `_mintRandom(address to, bytes32 secret)`: supply gate first (before any
draw logic), then the draw, the rarity roll and the ERC721 mint. -/
def mintRandom (env : HashEnv) (pbh : B32) (toAddr : Address) (secret : B32)
    (s : State) : Except Err State :=
  if s.totalMinted < MAX_SUPPLY then
    if toAddr = 0 then Except.error Err.MintToZero
    else if mintAssigned env pbh toAddr secret s ∈ s.mintedTokens.map Prod.fst then
      Except.error Err.DuplicateToken
    else Except.ok (mintResult env pbh toAddr secret s)
  else Except.error Err.SoldOut

/-- `commitAirdrop(bytes32 commitHash)`. -/
def commitAirdrop (sender : Address) (blockNumber : Nat) (commitHash : B32)
    (s : State) : Except Err State :=
  if s.saleState ≠ SaleState.Presale then Except.error Err.WrongPhase
  else if (s.airdropCommits sender).hash ≠ 0 then Except.error Err.AlreadyCommitted
  else Except.ok { s with
    airdropCommits := upd s.airdropCommits sender ⟨commitHash, blockNumber⟩ }

/-- Claimed-index check-and-set of `revealAirdrop`, in the representation
currently selected by `useBitmapForAirdrop`. -/
def claimCheckSet (index : Nat) (s : State) : Except Err State :=
  if s.useBitmapForAirdrop then
    if bitGet s.claimedBitmap index then Except.error Err.AlreadyClaimed
    else Except.ok { s with claimedBitmap := bitSet s.claimedBitmap index }
  else
    if s.claimedMap index then Except.error Err.AlreadyClaimed
    else Except.ok { s with claimedMap := upd s.claimedMap index true }

/-- `revealAirdrop(uint256 index, bytes32 secret, bytes32[] proof)`. -/
def revealAirdrop (env : HashEnv) (sender : Address) (blockNumber : Nat)
    (pbh : B32) (index : Nat) (secret : B32) (proof : List B32)
    (s : State) : Except Err State :=
  if s.saleState ≠ SaleState.Presale then Except.error Err.WrongPhase
  else if (s.airdropCommits sender).hash = 0 then Except.error Err.NoCommit
  else if blockNumber < earliestReveal (s.airdropCommits sender) then
    Except.error Err.TooEarly
  else if expiryBlock (s.airdropCommits sender) < blockNumber then
    Except.error Err.Expired
  else if env.keccakEnc secret ≠ (s.airdropCommits sender).hash then
    Except.error Err.BadSecret
  else if ¬ merkleVerify env proof s.merkleRoot (env.keccakLeaf index sender) then
    Except.error Err.InvalidProof
  else
    match claimCheckSet index s with
    | Except.error e => Except.error e
    | Except.ok s1 =>
      mintRandom env pbh sender secret
        { s1 with
          airdropCommits := upd s1.airdropCommits sender ⟨0, 0⟩,
          claimCount := upd s1.claimCount index (s1.claimCount index + 1) }

/-- `commitPublic(bytes32 commitHash)` (payable, with exact-price escrow). -/
def commitPublic (sender : Address) (blockNumber : Nat) (msgValue : Nat)
    (commitHash : B32) (s : State) : Except Err State :=
  if s.saleState ≠ SaleState.PublicSale then Except.error Err.WrongPhase
  else if (s.publicCommits sender).hash ≠ 0 then Except.error Err.AlreadyCommitted
  else if msgValue ≠ MINT_PRICE then Except.error Err.WrongPayment
  else Except.ok { s with
    publicCommits := upd s.publicCommits sender ⟨commitHash, blockNumber⟩,
    publicEscrow := upd s.publicEscrow sender (s.publicEscrow sender + msgValue),
    balance := s.balance + msgValue,
    totalReceived := s.totalReceived + msgValue }

/-- `_mintForImpl(address committer, address recipient, bytes32 secret)` —
the committer is always the transaction sender of `mintFor`. -/
def mintForImpl (env : HashEnv) (committer recipient : Address)
    (blockNumber : Nat) (pbh : B32) (secret : B32) (s : State) :
    Except Err State :=
  if s.saleState ≠ SaleState.PublicSale then Except.error Err.WrongPhase
  else if recipient = 0 then Except.error Err.RecipientZero
  else if (s.publicCommits committer).hash = 0 then Except.error Err.NoCommit
  else if blockNumber < earliestReveal (s.publicCommits committer) then
    Except.error Err.TooEarly
  else if expiryBlock (s.publicCommits committer) < blockNumber then
    Except.error Err.Expired
  else if env.keccakEnc secret ≠ (s.publicCommits committer).hash then
    Except.error Err.BadSecret
  else if s.publicEscrow committer ≠ MINT_PRICE then Except.error Err.EscrowMismatch
  else
    mintRandom env pbh recipient secret
      { s with
        publicCommits := upd s.publicCommits committer ⟨0, 0⟩,
        publicEscrow := upd s.publicEscrow committer 0 }

/-- `mintFor(address recipient, bytes32 secret)` — keyed by `msg.sender`. -/
def mintFor (env : HashEnv) (sender recipient : Address) (blockNumber : Nat)
    (pbh : B32) (secret : B32) (s : State) : Except Err State :=
  mintForImpl env sender recipient blockNumber pbh secret s

/-- `revealPublicFor` — back-compat alias of `mintFor` over the same impl. -/
def revealPublicFor (env : HashEnv) (sender recipient : Address)
    (blockNumber : Nat) (pbh : B32) (secret : B32) (s : State) :
    Except Err State :=
  mintForImpl env sender recipient blockNumber pbh secret s

/-- `cancelAirdropCommit()` (lenient: no expiry requirement). -/
def cancelAirdropCommit (sender : Address) (s : State) : Except Err State :=
  if (s.airdropCommits sender).hash = 0 then Except.error Err.NoCommit
  else Except.ok { s with airdropCommits := upd s.airdropCommits sender ⟨0, 0⟩ }

/-- `ownerCancelExpiredAirdrop(address user)`. -/
def ownerCancelExpiredAirdrop (sender user : Address) (blockNumber : Nat)
    (s : State) : Except Err State :=
  if sender ≠ s.owner then Except.error Err.NotOwner
  else if (s.airdropCommits user).hash = 0 then Except.error Err.NoCommit
  else if ¬ (expiryBlock (s.airdropCommits user) < blockNumber) then
    Except.error Err.NotExpired
  else Except.ok { s with airdropCommits := upd s.airdropCommits user ⟨0, 0⟩ }

/-- `cancelPublicCommit()` (lenient).  The refund transfer succeeds iff the
balance covers it; on failure the whole call reverts. -/
def cancelPublicCommit (sender : Address) (s : State) : Except Err State :=
  if (s.publicCommits sender).hash = 0 then Except.error Err.NoCommit
  else if s.balance < s.publicEscrow sender then Except.error Err.RefundFailed
  else Except.ok { s with
    publicCommits := upd s.publicCommits sender ⟨0, 0⟩,
    publicEscrow := upd s.publicEscrow sender 0,
    balance := s.balance - s.publicEscrow sender }

/-- `ownerCancelExpiredPublic(address user)`. -/
def ownerCancelExpiredPublic (sender user : Address) (blockNumber : Nat)
    (s : State) : Except Err State :=
  if sender ≠ s.owner then Except.error Err.NotOwner
  else if (s.publicCommits user).hash = 0 then Except.error Err.NoCommit
  else if ¬ (expiryBlock (s.publicCommits user) < blockNumber) then
    Except.error Err.NotExpired
  else if s.balance < s.publicEscrow user then Except.error Err.RefundFailed
  else Except.ok { s with
    publicCommits := upd s.publicCommits user ⟨0, 0⟩,
    publicEscrow := upd s.publicEscrow user 0,
    balance := s.balance - s.publicEscrow user }

/-- `setSaleState(SaleState _newState)` (onlyOwner). -/
def setSaleState (sender : Address) (newState : SaleState) (s : State) :
    Except Err State :=
  if sender ≠ s.owner then Except.error Err.NotOwner
  else Except.ok { s with saleState := newState }

/-- `setUseBitmap(bool _useBitmap)` (onlyOwner). -/
def setUseBitmap (sender : Address) (b : Bool) (s : State) : Except Err State :=
  if sender ≠ s.owner then Except.error Err.NotOwner
  else Except.ok { s with useBitmapForAirdrop := b }

/-- `distributeFunds()` (onlyOwner): credits each contributor with its share
of the current balance; the balance itself is not reduced. -/
def distributeFunds (sender : Address) (s : State) : Except Err State :=
  if sender ≠ s.owner then Except.error Err.NotOwner
  else if s.balance = 0 then Except.error Err.NoFunds
  else Except.ok { s with
    withdrawBalance := s.contributors.foldl
      (fun wb c => upd wb c (wb c + s.balance * s.shares c / s.totalShares))
      s.withdrawBalance }

/-- `withdraw()`: zeroes the credit, then transfers it (transfer succeeds iff
the balance covers it, else the call reverts). -/
def withdraw (sender : Address) (s : State) : Except Err State :=
  if s.withdrawBalance sender = 0 then Except.error Err.NothingToWithdraw
  else if s.balance < s.withdrawBalance sender then Except.error Err.TransferFailed
  else Except.ok { s with
    withdrawBalance := upd s.withdrawBalance sender 0,
    balance := s.balance - s.withdrawBalance sender,
    releasedOf := upd s.releasedOf sender
      (s.releasedOf sender + s.withdrawBalance sender),
    totalReleased := s.totalReleased + s.withdrawBalance sender }

/-- `receive() external payable`. -/
def deposit (amount : Nat) (s : State) : Except Err State :=
  Except.ok { s with
    balance := s.balance + amount,
    totalReceived := s.totalReceived + amount }

/-- Claimed-test of an index in the representation currently selected by
`useBitmapForAirdrop`. -/
def claimedCur (s : State) (index : Nat) : Bool :=
  if s.useBitmapForAirdrop then bitGet s.claimedBitmap index else s.claimedMap index

/-- State after marking an index claimed in the current representation. -/
def claimStore (index : Nat) (s : State) : State :=
  if s.useBitmapForAirdrop then
    { s with claimedBitmap := bitSet s.claimedBitmap index }
  else
    { s with claimedMap := upd s.claimedMap index true }

/-- State reached by a successful `revealAirdrop` just before its mint: index
claimed, commitment deleted, claim counted. -/
def afterClaim (sender : Address) (index : Nat) (s : State) : State :=
  { claimStore index s with
    airdropCommits := upd (claimStore index s).airdropCommits sender ⟨0, 0⟩,
    claimCount := upd (claimStore index s).claimCount index
      ((claimStore index s).claimCount index + 1) }

/-- State reached by a successful `_mintForImpl` just before its mint:
commitment and escrow deleted together. -/
def afterConsume (committer : Address) (s : State) : State :=
  { s with
    publicCommits := upd s.publicCommits committer ⟨0, 0⟩,
    publicEscrow := upd s.publicEscrow committer 0 }

/-- One external state-mutating call, with its sender and block context. -/
inductive Op
  | setSaleState (sender : Address) (newState : SaleState)
  | setUseBitmap (sender : Address) (b : Bool)
  | commitAirdrop (sender : Address) (blockNumber : Nat) (commitHash : B32)
  | revealAirdrop (sender : Address) (blockNumber : Nat) (pbh : B32)
      (index : Nat) (secret : B32) (proof : List B32)
  | commitPublic (sender : Address) (blockNumber : Nat) (msgValue : Nat)
      (commitHash : B32)
  | mintFor (sender recipient : Address) (blockNumber : Nat) (pbh : B32)
      (secret : B32)
  | cancelAirdropCommit (sender : Address)
  | ownerCancelExpiredAirdrop (sender user : Address) (blockNumber : Nat)
  | cancelPublicCommit (sender : Address)
  | ownerCancelExpiredPublic (sender user : Address) (blockNumber : Nat)
  | distributeFunds (sender : Address)
  | withdraw (sender : Address)
  | deposit (amount : Nat)

/-- Dispatch one call. -/
def step (env : HashEnv) (s : State) : Op → Except Err State
  | Op.setSaleState sender ns => setSaleState sender ns s
  | Op.setUseBitmap sender b => setUseBitmap sender b s
  | Op.commitAirdrop sender bn h => commitAirdrop sender bn h s
  | Op.revealAirdrop sender bn pbh index secret proof =>
      revealAirdrop env sender bn pbh index secret proof s
  | Op.commitPublic sender bn v h => commitPublic sender bn v h s
  | Op.mintFor sender recipient bn pbh secret =>
      mintFor env sender recipient bn pbh secret s
  | Op.cancelAirdropCommit sender => cancelAirdropCommit sender s
  | Op.ownerCancelExpiredAirdrop sender user bn =>
      ownerCancelExpiredAirdrop sender user bn s
  | Op.cancelPublicCommit sender => cancelPublicCommit sender s
  | Op.ownerCancelExpiredPublic sender user bn =>
      ownerCancelExpiredPublic sender user bn s
  | Op.distributeFunds sender => distributeFunds sender s
  | Op.withdraw sender => withdraw sender s
  | Op.deposit amount => deposit amount s

/-- Transaction semantics: a reverting call leaves the state unchanged. -/
def exec (env : HashEnv) (s : State) (op : Op) : State :=
  match step env s op with
  | Except.ok s1 => s1
  | Except.error _ => s

/-- Run a sequence of external calls. -/
def run (env : HashEnv) (s : State) (ops : List Op) : State :=
  ops.foldl (exec env) s

/-- Constructor state: merkle root fixed, shares registered by the
constructor loop, sale closed. -/
def initState (deployer : Address) (root : B32) (cs : List (Address × Nat)) :
    State where
  owner := deployer
  merkleRoot := root
  saleState := SaleState.Closed
  totalMinted := 0
  tokenRarity := fun _ => Rarity.Common
  airdropCommits := fun _ => ⟨0, 0⟩
  publicCommits := fun _ => ⟨0, 0⟩
  publicEscrow := fun _ => 0
  claimedBitmap := fun _ => 0
  claimedMap := fun _ => false
  useBitmapForAirdrop := false
  tokenMatrix := fun _ => 0
  contributors := cs.map Prod.fst
  shares := cs.foldl (fun f p => upd f p.1 p.2) (fun _ => 0)
  totalShares := cs.foldl (fun t p => t + p.2) 0
  withdrawBalance := fun _ => 0
  balance := 0
  mintedTokens := []
  claimCount := fun _ => 0
  releasedOf := fun _ => 0
  totalReleased := 0
  totalReceived := 0

/-! Remaining-id pool: the virtual permutation realized by `tokenMatrix`. -/

/-- Occupant of a live pool slot: an unset (`0`) matrix entry means the slot
holds its own index (the implicit-defaulting convention of `_mintRandom`). -/
def occ (tm : Nat → Nat) (i : Nat) : Nat :=
  if tm i = 0 then i else tm i

/-- The ids occupying the first `remaining` (live) slots. -/
def poolList (tm : Nat → Nat) (remaining : Nat) : List Nat :=
  (List.range remaining).map (occ tm)

/-- Mint-relevant invariant: the live pool together with the already-minted
ids is a permutation of the whole id space `[0, MAX_SUPPLY)`. -/
def MintInv (totalMinted : Nat) (tm : Nat → Nat)
    (minted : List (Nat × Address)) : Prop :=
  totalMinted ≤ MAX_SUPPLY ∧
  minted.length = totalMinted ∧
  (poolList tm (MAX_SUPPLY - totalMinted) ++ minted.map Prod.fst).Perm
    (List.range MAX_SUPPLY)

theorem occ_upd_of_ne (tm : Nat → Nat) (i v j : Nat) (h : j ≠ i) :
    occ (upd tm i v) j = occ tm j := by
  simp [occ, upd, h]

theorem occ_upd_self (tm : Nat → Nat) (i v : Nat) (hv : v ≠ 0) :
    occ (upd tm i v) i = v := by
  simp [occ, upd, hv]

/-- Swap-to-last draw step: writing the last live slot's occupant over the
drawn slot and dropping the last slot removes exactly the drawn occupant from
the pool (as a multiset). -/
theorem pool_step (tm : Nat → Nat) (m ri : Nat) (hri : ri ≤ m) :
    (poolList (upd tm ri (occ tm m)) m ++ [occ tm ri]).Perm
      (poolList tm (m + 1)) := by
  rcases Nat.lt_or_ge ri m with hlt | hge
  · -- the drawn slot is strictly before the last live slot
    have hL : occ tm m ≠ 0 := by
      unfold occ; split
      · omega
      · assumption
    have hmem : ri ∈ List.range m := List.mem_range.mpr hlt
    have hnd : (List.range m).Nodup := List.nodup_range m
    have hperm1 : (List.range m).Perm (ri :: (List.range m).erase ri) :=
      List.perm_cons_erase hmem
    have hcongr : ((List.range m).erase ri).map (occ (upd tm ri (occ tm m)))
        = ((List.range m).erase ri).map (occ tm) := by
      apply List.map_congr_left
      intro x hx
      exact occ_upd_of_ne tm ri (occ tm m) x ((hnd.mem_erase_iff.mp hx).1)
    have hmapcons : (ri :: (List.range m).erase ri).map (occ (upd tm ri (occ tm m)))
        = occ tm m :: ((List.range m).erase ri).map (occ tm) := by
      rw [List.map_cons, occ_upd_self tm ri (occ tm m) hL, hcongr]
    have hnew := hperm1.map (occ (upd tm ri (occ tm m)))
    rw [hmapcons] at hnew
    have hold3 : ((List.range m).map (occ tm)).Perm
        (occ tm ri :: ((List.range m).erase ri).map (occ tm)) := by
      simpa using hperm1.map (occ tm)
    have hold2 : poolList tm (m + 1) = (List.range m).map (occ tm) ++ [occ tm m] := by
      unfold poolList
      rw [List.range_succ, List.map_append, List.map_singleton]
    have h1 : (poolList (upd tm ri (occ tm m)) m ++ [occ tm ri]).Perm
        (occ tm ri :: occ tm m :: ((List.range m).erase ri).map (occ tm)) := by
      refine (hnew.append_right [occ tm ri]).trans ?_
      exact List.perm_append_comm
    have h2 : (poolList tm (m + 1)).Perm
        (occ tm ri :: occ tm m :: ((List.range m).erase ri).map (occ tm)) := by
      rw [hold2]
      refine (hold3.append_right [occ tm m]).trans ?_
      refine List.perm_append_comm.trans ?_
      exact List.Perm.swap (occ tm ri) (occ tm m) _
    exact h1.trans h2.symm
  · -- the drawn slot is the last live slot itself
    have heq : ri = m := Nat.le_antisymm hri hge
    subst heq
    have hcongr : (List.range ri).map (occ (upd tm ri (occ tm ri)))
        = (List.range ri).map (occ tm) := by
      apply List.map_congr_left
      intro x hx
      exact occ_upd_of_ne tm ri (occ tm ri) x (Nat.ne_of_lt (List.mem_range.mp hx))
    unfold poolList
    rw [List.range_succ, List.map_append, List.map_singleton, hcongr]

theorem slotId_eq_occ (tm : Nat → Nat) (i : Nat) (h : i < MAX_SUPPLY) :
    slotId tm i = occ tm i := by
  simp only [slotId, occ, h, and_true]

theorem mintRandom_ok_iff (env : HashEnv) (pbh : B32) (toAddr : Address)
    (secret : B32) (s s' : State) :
    mintRandom env pbh toAddr secret s = Except.ok s' ↔
    (s.totalMinted < MAX_SUPPLY ∧ toAddr ≠ 0 ∧
     mintAssigned env pbh toAddr secret s ∉ s.mintedTokens.map Prod.fst ∧
     s' = mintResult env pbh toAddr secret s) := by
  unfold mintRandom
  split_ifs with h1 h2 h3 <;> simp_all [eq_comm]

theorem mintRandom_soldOut (env : HashEnv) (pbh : B32) (toAddr : Address)
    (secret : B32) (s : State) (h : ¬ s.totalMinted < MAX_SUPPLY) :
    mintRandom env pbh toAddr secret s = Except.error Err.SoldOut := by
  unfold mintRandom
  rw [if_neg h]

/-- Successful mints preserve the pool/minted permutation invariant. -/
theorem mintResult_inv (env : HashEnv) (pbh : B32) (toAddr : Address)
    (secret : B32) (s : State)
    (hinv : MintInv s.totalMinted s.tokenMatrix s.mintedTokens)
    (hroom : s.totalMinted < MAX_SUPPLY) :
    MintInv (s.totalMinted + 1) (mintResult env pbh toAddr secret s).tokenMatrix
      (mintResult env pbh toAddr secret s).mintedTokens := by
  obtain ⟨hle, hlen, hperm⟩ := hinv
  have hrpos : 0 < MAX_SUPPLY - s.totalMinted := by omega
  have hrib : mintSlot env pbh toAddr secret s < MAX_SUPPLY - s.totalMinted :=
    Nat.mod_lt _ hrpos
  have hriM : mintSlot env pbh toAddr secret s < MAX_SUPPLY := by omega
  have hmM : MAX_SUPPLY - s.totalMinted - 1 < MAX_SUPPLY := by omega
  have hrim : mintSlot env pbh toAddr secret s ≤ MAX_SUPPLY - s.totalMinted - 1 := by
    omega
  have hm1 : MAX_SUPPLY - s.totalMinted - 1 + 1 = MAX_SUPPLY - s.totalMinted := by
    omega
  refine ⟨by omega, by simp [mintResult, hlen], ?_⟩
  have hps := pool_step s.tokenMatrix (MAX_SUPPLY - s.totalMinted - 1)
    (mintSlot env pbh toAddr secret s) hrim
  rw [hm1] at hps
  have hM1 : MAX_SUPPLY - (s.totalMinted + 1) = MAX_SUPPLY - s.totalMinted - 1 := by
    omega
  have hassign : mintAssigned env pbh toAddr secret s
      = occ s.tokenMatrix (mintSlot env pbh toAddr secret s) := by
    unfold mintAssigned
    exact slotId_eq_occ _ _ hriM
  have htm : (mintResult env pbh toAddr secret s).tokenMatrix
      = upd s.tokenMatrix (mintSlot env pbh toAddr secret s)
          (occ s.tokenMatrix (MAX_SUPPLY - s.totalMinted - 1)) := by
    unfold mintResult
    rw [slotId_eq_occ _ _ hmM]
  have hmt : (mintResult env pbh toAddr secret s).mintedTokens.map Prod.fst
      = s.mintedTokens.map Prod.fst ++ [mintAssigned env pbh toAddr secret s] := by
    simp [mintResult]
  rw [hM1, htm, hmt, hassign]
  have step1 : (poolList (upd s.tokenMatrix (mintSlot env pbh toAddr secret s)
        (occ s.tokenMatrix (MAX_SUPPLY - s.totalMinted - 1)))
        (MAX_SUPPLY - s.totalMinted - 1)
      ++ (s.mintedTokens.map Prod.fst
          ++ [occ s.tokenMatrix (mintSlot env pbh toAddr secret s)])).Perm
      ((poolList (upd s.tokenMatrix (mintSlot env pbh toAddr secret s)
          (occ s.tokenMatrix (MAX_SUPPLY - s.totalMinted - 1)))
          (MAX_SUPPLY - s.totalMinted - 1)
        ++ [occ s.tokenMatrix (mintSlot env pbh toAddr secret s)])
       ++ s.mintedTokens.map Prod.fst) := by
    rw [List.append_assoc]
    exact List.Perm.append_left _ List.perm_append_comm
  refine step1.trans ?_
  refine (hps.append_right (s.mintedTokens.map Prod.fst)).trans ?_
  exact hperm

/-- From the invariant, the drawn id is never a duplicate, so a mint from any
reachable state succeeds whenever supply remains and the recipient is
nonzero. -/
theorem mintRandom_ok_of (env : HashEnv) (pbh : B32) (toAddr : Address)
    (secret : B32) (s : State)
    (hinv : MintInv s.totalMinted s.tokenMatrix s.mintedTokens)
    (hroom : s.totalMinted < MAX_SUPPLY) (hto : toAddr ≠ 0) :
    mintRandom env pbh toAddr secret s
      = Except.ok (mintResult env pbh toAddr secret s) := by
  rw [mintRandom_ok_iff]
  refine ⟨hroom, hto, ?_, rfl⟩
  obtain ⟨hle, hlen, hperm⟩ := hinv
  have hrpos : 0 < MAX_SUPPLY - s.totalMinted := by omega
  have hrib : mintSlot env pbh toAddr secret s < MAX_SUPPLY - s.totalMinted :=
    Nat.mod_lt _ hrpos
  have hriM : mintSlot env pbh toAddr secret s < MAX_SUPPLY := by omega
  have hmempool : mintAssigned env pbh toAddr secret s
      ∈ poolList s.tokenMatrix (MAX_SUPPLY - s.totalMinted) := by
    unfold mintAssigned poolList
    rw [slotId_eq_occ _ _ hriM]
    exact List.mem_map_of_mem (occ s.tokenMatrix) (List.mem_range.mpr hrib)
  have hnodup : (poolList s.tokenMatrix (MAX_SUPPLY - s.totalMinted)
      ++ s.mintedTokens.map Prod.fst).Nodup :=
    hperm.nodup_iff.mpr (List.nodup_range MAX_SUPPLY)
  have hdisj := (List.nodup_append.mp hnodup).2.2
  intro hmem
  exact hdisj hmempool hmem

/-- Reachable-state invariant for the minting machinery. -/
def Inv (s : State) : Prop :=
  MintInv s.totalMinted s.tokenMatrix s.mintedTokens

theorem inv_congr {s s' : State} (h : Inv s)
    (h1 : s'.totalMinted = s.totalMinted) (h2 : s'.tokenMatrix = s.tokenMatrix)
    (h3 : s'.mintedTokens = s.mintedTokens) : Inv s' := by
  unfold Inv at *
  rw [h1, h2, h3]
  exact h

theorem claimCheckSet_mint_fields (index : Nat) (s s1 : State)
    (h : claimCheckSet index s = Except.ok s1) :
    s1.totalMinted = s.totalMinted ∧ s1.tokenMatrix = s.tokenMatrix ∧
    s1.mintedTokens = s.mintedTokens := by
  unfold claimCheckSet at h
  split at h <;> split at h <;> simp_all <;> subst h <;> exact ⟨rfl, rfl, rfl⟩

theorem mintRandom_inv (env : HashEnv) (pbh : B32) (toAddr : Address)
    (secret : B32) (s s' : State) (hinv : Inv s)
    (h : mintRandom env pbh toAddr secret s = Except.ok s') : Inv s' := by
  rw [mintRandom_ok_iff] at h
  obtain ⟨hroom, -, -, rfl⟩ := h
  exact mintResult_inv env pbh toAddr secret s hinv hroom

theorem step_inv (env : HashEnv) (s : State) (op : Op) (hinv : Inv s) :
    Inv (exec env s op) := by
  unfold exec
  cases hstep : step env s op with
  | error e => exact hinv
  | ok s' =>
    cases op with
    | setSaleState sender ns =>
      simp only [step] at hstep
      unfold setSaleState at hstep
      split at hstep
      · simp at hstep
      · injection hstep with h
        subst h
        exact inv_congr hinv rfl rfl rfl
    | setUseBitmap sender b =>
      simp only [step] at hstep
      unfold setUseBitmap at hstep
      split at hstep
      · simp at hstep
      · injection hstep with h
        subst h
        exact inv_congr hinv rfl rfl rfl
    | commitAirdrop sender bn ch =>
      simp only [step] at hstep
      unfold commitAirdrop at hstep
      split at hstep
      · simp at hstep
      · split at hstep
        · simp at hstep
        · injection hstep with h
          subst h
          exact inv_congr hinv rfl rfl rfl
    | revealAirdrop sender bn pbh index secret proof =>
      simp only [step] at hstep
      unfold revealAirdrop at hstep
      split at hstep
      · simp at hstep
      · split at hstep
        · simp at hstep
        · split at hstep
          · simp at hstep
          · split at hstep
            · simp at hstep
            · split at hstep
              · simp at hstep
              · split at hstep
                · simp at hstep
                · split at hstep
                  · simp at hstep
                  · rename_i s1 heq
                    obtain ⟨f1, f2, f3⟩ := claimCheckSet_mint_fields index s s1 heq
                    refine mintRandom_inv env pbh sender secret _ s' ?_ hstep
                    exact inv_congr hinv f1 f2 f3
    | commitPublic sender bn v ch =>
      simp only [step] at hstep
      unfold commitPublic at hstep
      split at hstep
      · simp at hstep
      · split at hstep
        · simp at hstep
        · split at hstep
          · simp at hstep
          · injection hstep with h
            subst h
            exact inv_congr hinv rfl rfl rfl
    | mintFor sender recipient bn pbh secret =>
      simp only [step] at hstep
      unfold mintFor mintForImpl at hstep
      split at hstep
      · simp at hstep
      · split at hstep
        · simp at hstep
        · split at hstep
          · simp at hstep
          · split at hstep
            · simp at hstep
            · split at hstep
              · simp at hstep
              · split at hstep
                · simp at hstep
                · split at hstep
                  · simp at hstep
                  · refine mintRandom_inv env pbh recipient secret _ s' ?_ hstep
                    exact inv_congr hinv rfl rfl rfl
    | cancelAirdropCommit sender =>
      simp only [step] at hstep
      unfold cancelAirdropCommit at hstep
      split at hstep
      · simp at hstep
      · injection hstep with h
        subst h
        exact inv_congr hinv rfl rfl rfl
    | ownerCancelExpiredAirdrop sender user bn =>
      simp only [step] at hstep
      unfold ownerCancelExpiredAirdrop at hstep
      split at hstep
      · simp at hstep
      · split at hstep
        · simp at hstep
        · split at hstep
          · simp at hstep
          · injection hstep with h
            subst h
            exact inv_congr hinv rfl rfl rfl
    | cancelPublicCommit sender =>
      simp only [step] at hstep
      unfold cancelPublicCommit at hstep
      split at hstep
      · simp at hstep
      · split at hstep
        · simp at hstep
        · injection hstep with h
          subst h
          exact inv_congr hinv rfl rfl rfl
    | ownerCancelExpiredPublic sender user bn =>
      simp only [step] at hstep
      unfold ownerCancelExpiredPublic at hstep
      split at hstep
      · simp at hstep
      · split at hstep
        · simp at hstep
        · split at hstep
          · simp at hstep
          · split at hstep
            · simp at hstep
            · injection hstep with h
              subst h
              exact inv_congr hinv rfl rfl rfl
    | distributeFunds sender =>
      simp only [step] at hstep
      unfold distributeFunds at hstep
      split at hstep
      · simp at hstep
      · split at hstep
        · simp at hstep
        · injection hstep with h
          subst h
          exact inv_congr hinv rfl rfl rfl
    | withdraw sender =>
      simp only [step] at hstep
      unfold withdraw at hstep
      split at hstep
      · simp at hstep
      · split at hstep
        · simp at hstep
        · injection hstep with h
          subst h
          exact inv_congr hinv rfl rfl rfl
    | deposit amount =>
      simp only [step] at hstep
      unfold deposit at hstep
      injection hstep with h
      subst h
      exact inv_congr hinv rfl rfl rfl

theorem run_inv (env : HashEnv) (s : State) (ops : List Op) (hinv : Inv s) :
    Inv (run env s ops) := by
  induction ops generalizing s with
  | nil => exact hinv
  | cons op ops ih =>
    exact ih (exec env s op) (step_inv env s op hinv)

theorem inv_init (deployer : Address) (root : B32) (cs : List (Address × Nat)) :
    Inv (initState deployer root cs) := by
  refine ⟨by simp [initState, MAX_SUPPLY], by simp [initState], ?_⟩
  have hocc : ∀ i, occ (fun _ => (0 : Nat)) i = i := by
    intro i
    simp [occ]
  simp only [initState, poolList]
  rw [List.map_congr_left (fun i _ => hocc i)]
  simp

/-- Concrete hash environment used to instantiate witnesses and
counterexamples (injective enough on the tiny inputs they use). -/
def envA : HashEnv where
  keccakEnc := fun s => s + 1
  keccakLeaf := fun i a => i * 1000003 + a + 7
  keccakNode := fun a b => a * 2000003 + b + 11
  keccakEntropy := fun _ a n s => a + n + s + 13
  keccakRarity := fun h => h + 17

/-- Predicate selecting traces that never toggle the claimed-set
representation. -/
def noToggle : Op → Prop
  | Op.setUseBitmap _ _ => False
  | _ => True

/-- Trace that claims index 0 under the boolean map, toggles the
representation to the bitmap, and claims index 0 once more. -/
def trToggleDoubleClaim : List Op :=
  [Op.setSaleState 9 SaleState.Presale,
   Op.commitAirdrop 1 100 6,
   Op.revealAirdrop 1 110 0 0 5 [],
   Op.setUseBitmap 9 true,
   Op.commitAirdrop 1 120 6,
   Op.revealAirdrop 1 130 0 0 5 []]

/-- Predicate selecting traces whose public commits all carry a nonzero
commit hash. -/
def nonzeroCommit : Op → Prop
  | Op.commitPublic _ _ _ h => h ≠ 0
  | _ => True

/-- Trace that commits in the public phase with commit hash `bytes32(0)`. -/
def trZeroHashCommit : List Op :=
  [Op.setSaleState 9 SaleState.PublicSale,
   Op.commitPublic 1 100 MINT_PRICE 0]

/-- Trace with one well-formed public commit. -/
def trPublicCommit : List Op :=
  [Op.setSaleState 9 SaleState.PublicSale,
   Op.commitPublic 1 100 MINT_PRICE 6]

/-- Trace that distributes the same 100-wei balance three times, receives
another 100 wei, and then lets contributor 1 withdraw. -/
def trOverDistribute : List Op :=
  [Op.deposit 100,
   Op.distributeFunds 9,
   Op.distributeFunds 9,
   Op.distributeFunds 9,
   Op.deposit 100,
   Op.withdraw 1]

/-- Witness trace: open the presale, commit, then reveal-and-mint. -/
def trOneMint : List Op :=
  [Op.setSaleState 9 SaleState.Presale,
   Op.commitAirdrop 1 100 6,
   Op.revealAirdrop 1 110 0 0 5 []]

/-- C1: for every sequence of calls from deployment, the minted token ids are
duplicate-free, each lies in `[0, MAX_SUPPLY)`, `totalMinted` counts them and
never exceeds `MAX_SUPPLY`; and a mint attempted with `totalMinted` at
`MAX_SUPPLY` fails with `SoldOut` (the supply gate is the first check of
`mintRandom`, before any draw logic). -/
theorem supply_conservation (env : HashEnv) (deployer : Address) (root : B32)
    (cs : List (Address × Nat)) (ops : List Op) :
    ((run env (initState deployer root cs) ops).mintedTokens.map Prod.fst).Nodup ∧
    (∀ id ∈ (run env (initState deployer root cs) ops).mintedTokens.map Prod.fst,
      id < MAX_SUPPLY) ∧
    (run env (initState deployer root cs) ops).mintedTokens.length
      = (run env (initState deployer root cs) ops).totalMinted ∧
    (run env (initState deployer root cs) ops).totalMinted ≤ MAX_SUPPLY ∧
    (∀ (t : State) (pbh : B32) (toAddr : Address) (secret : B32),
      t.totalMinted = MAX_SUPPLY →
      mintRandom env pbh toAddr secret t = Except.error Err.SoldOut) := by
  obtain ⟨hle, hlen, hperm⟩ :=
    run_inv env (initState deployer root cs) ops (inv_init deployer root cs)
  have hnodup := hperm.nodup_iff.mpr (List.nodup_range MAX_SUPPLY)
  refine ⟨(List.nodup_append.mp hnodup).2.1, ?_, hlen, hle, ?_⟩
  · intro id hid
    have : id ∈ List.range MAX_SUPPLY :=
      hperm.mem_iff.mp (List.mem_append.mpr (Or.inr hid))
    exact List.mem_range.mp this
  · intro t pbh toAddr secret ht
    exact mintRandom_soldOut env pbh toAddr secret t (by omega)

/-- Witness for C1 on a concrete deployment and a trace with one real mint. -/
theorem supply_conservation_witness :
    ((run envA (initState 9 8 []) trOneMint).mintedTokens.map Prod.fst).Nodup ∧
    (∀ id ∈ (run envA (initState 9 8 []) trOneMint).mintedTokens.map Prod.fst,
      id < MAX_SUPPLY) ∧
    (run envA (initState 9 8 []) trOneMint).mintedTokens.length
      = (run envA (initState 9 8 []) trOneMint).totalMinted ∧
    (run envA (initState 9 8 []) trOneMint).totalMinted ≤ MAX_SUPPLY ∧
    (∀ (t : State) (pbh : B32) (toAddr : Address) (secret : B32),
      t.totalMinted = MAX_SUPPLY →
      mintRandom envA pbh toAddr secret t = Except.error Err.SoldOut) :=
  supply_conservation envA 9 8 [] trOneMint

theorem claimStore_frame (index : Nat) (s : State) :
    (claimStore index s).totalMinted = s.totalMinted ∧
    (claimStore index s).tokenMatrix = s.tokenMatrix ∧
    (claimStore index s).mintedTokens = s.mintedTokens ∧
    (claimStore index s).airdropCommits = s.airdropCommits ∧
    (claimStore index s).publicCommits = s.publicCommits ∧
    (claimStore index s).publicEscrow = s.publicEscrow ∧
    (claimStore index s).saleState = s.saleState ∧
    (claimStore index s).merkleRoot = s.merkleRoot ∧
    (claimStore index s).useBitmapForAirdrop = s.useBitmapForAirdrop ∧
    (claimStore index s).claimCount = s.claimCount ∧
    (claimStore index s).balance = s.balance ∧
    (claimStore index s).releasedOf = s.releasedOf ∧
    (claimStore index s).totalReleased = s.totalReleased ∧
    (claimStore index s).totalReceived = s.totalReceived := by
  unfold claimStore
  split <;>
    exact ⟨rfl, rfl, rfl, rfl, rfl, rfl, rfl, rfl, rfl, rfl, rfl, rfl, rfl, rfl⟩

theorem claimCheckSet_ok_of (index : Nat) (s : State)
    (h : claimedCur s index = false) :
    claimCheckSet index s = Except.ok (claimStore index s) := by
  unfold claimCheckSet claimStore
  unfold claimedCur at h
  split <;> simp_all

theorem claimCheckSet_already (index : Nat) (s : State)
    (h : claimedCur s index = true) :
    claimCheckSet index s = Except.error Err.AlreadyClaimed := by
  unfold claimCheckSet
  unfold claimedCur at h
  split <;> simp_all

/-- Success evaluation of `commitAirdrop`. -/
theorem commitAirdrop_ok (sender : Address) (bn : Nat) (ch : B32) (s : State)
    (hphase : s.saleState = SaleState.Presale)
    (hc : (s.airdropCommits sender).hash = 0) :
    commitAirdrop sender bn ch s
      = Except.ok { s with airdropCommits := upd s.airdropCommits sender ⟨ch, bn⟩ } := by
  unfold commitAirdrop
  rw [if_neg (by simp [hphase]), if_neg (by simpa using hc)]

/-- A second `commitAirdrop` while a commitment is live fails. -/
theorem commitAirdrop_already (sender : Address) (bn : Nat) (ch : B32) (s : State)
    (hphase : s.saleState = SaleState.Presale)
    (hc : (s.airdropCommits sender).hash ≠ 0) :
    commitAirdrop sender bn ch s = Except.error Err.AlreadyCommitted := by
  unfold commitAirdrop
  rw [if_neg (by simp [hphase]), if_pos (by simpa using hc)]

/-- A `revealAirdrop` with no live commitment fails `NoCommit`. -/
theorem revealAirdrop_noCommit (env : HashEnv) (sender : Address) (bn : Nat)
    (pbh : B32) (index : Nat) (secret : B32) (proof : List B32) (s : State)
    (hphase : s.saleState = SaleState.Presale)
    (hc : (s.airdropCommits sender).hash = 0) :
    revealAirdrop env sender bn pbh index secret proof s
      = Except.error Err.NoCommit := by
  unfold revealAirdrop
  rw [if_neg (by simp [hphase]), if_pos hc]

/-- A `revealAirdrop` before the delay has passed fails `TooEarly`. -/
theorem revealAirdrop_tooEarly (env : HashEnv) (sender : Address) (bn : Nat)
    (pbh : B32) (index : Nat) (secret : B32) (proof : List B32) (s : State)
    (hphase : s.saleState = SaleState.Presale)
    (hc : (s.airdropCommits sender).hash ≠ 0)
    (hbn : bn < earliestReveal (s.airdropCommits sender)) :
    revealAirdrop env sender bn pbh index secret proof s
      = Except.error Err.TooEarly := by
  unfold revealAirdrop
  rw [if_neg (by simp [hphase]), if_neg hc, if_pos hbn]

/-- A `revealAirdrop` after the expiry block fails `Expired`. -/
theorem revealAirdrop_expired (env : HashEnv) (sender : Address) (bn : Nat)
    (pbh : B32) (index : Nat) (secret : B32) (proof : List B32) (s : State)
    (hphase : s.saleState = SaleState.Presale)
    (hc : (s.airdropCommits sender).hash ≠ 0)
    (hbn : expiryBlock (s.airdropCommits sender) < bn) :
    revealAirdrop env sender bn pbh index secret proof s
      = Except.error Err.Expired := by
  unfold revealAirdrop
  have hnotEarly : ¬ bn < earliestReveal (s.airdropCommits sender) := by
    unfold earliestReveal
    unfold expiryBlock at hbn
    omega
  rw [if_neg (by simp [hphase]), if_neg hc, if_neg hnotEarly, if_pos hbn]

/-- A `revealAirdrop` whose claimed-index is already set (all earlier checks
passing) fails `AlreadyClaimed`. -/
theorem revealAirdrop_alreadyClaimed (env : HashEnv) (sender : Address)
    (bn : Nat) (pbh : B32) (index : Nat) (secret : B32) (proof : List B32)
    (s : State)
    (hphase : s.saleState = SaleState.Presale)
    (hc : (s.airdropCommits sender).hash ≠ 0)
    (h1 : earliestReveal (s.airdropCommits sender) ≤ bn)
    (h2 : bn ≤ expiryBlock (s.airdropCommits sender))
    (hsec : env.keccakEnc secret = (s.airdropCommits sender).hash)
    (hmp : merkleVerify env proof s.merkleRoot (env.keccakLeaf index sender) = true)
    (hclaim : claimedCur s index = true) :
    revealAirdrop env sender bn pbh index secret proof s
      = Except.error Err.AlreadyClaimed := by
  unfold revealAirdrop
  rw [if_neg (by simp [hphase]), if_neg hc, if_neg (Nat.not_lt.mpr h1),
    if_neg (Nat.not_lt.mpr h2), if_neg (by simp [hsec]), if_neg (by simp [hmp]),
    claimCheckSet_already index s hclaim]

/-- Success evaluation of `revealAirdrop`: all preconditions passing, the call
is exactly the mint from the post-claim state. -/
theorem revealAirdrop_ok (env : HashEnv) (sender : Address) (bn : Nat)
    (pbh : B32) (index : Nat) (secret : B32) (proof : List B32) (s : State)
    (hphase : s.saleState = SaleState.Presale)
    (hc : (s.airdropCommits sender).hash ≠ 0)
    (h1 : earliestReveal (s.airdropCommits sender) ≤ bn)
    (h2 : bn ≤ expiryBlock (s.airdropCommits sender))
    (hsec : env.keccakEnc secret = (s.airdropCommits sender).hash)
    (hmp : merkleVerify env proof s.merkleRoot (env.keccakLeaf index sender) = true)
    (hclaim : claimedCur s index = false) :
    revealAirdrop env sender bn pbh index secret proof s
      = mintRandom env pbh sender secret (afterClaim sender index s) := by
  unfold revealAirdrop
  rw [if_neg (by simp [hphase]), if_neg hc, if_neg (Nat.not_lt.mpr h1),
    if_neg (Nat.not_lt.mpr h2), if_neg (by simp [hsec]), if_neg (by simp [hmp]),
    claimCheckSet_ok_of index s hclaim]
  rfl

/-- A public reveal by a sender with no live commitment fails `NoCommit`,
whatever secret is presented. -/
theorem mintForImpl_noCommit (env : HashEnv) (committer recipient : Address)
    (bn : Nat) (pbh : B32) (secret : B32) (s : State)
    (hphase : s.saleState = SaleState.PublicSale) (hrec : recipient ≠ 0)
    (hc : (s.publicCommits committer).hash = 0) :
    mintForImpl env committer recipient bn pbh secret s
      = Except.error Err.NoCommit := by
  unfold mintForImpl
  rw [if_neg (by simp [hphase]), if_neg hrec, if_pos hc]

/-- A public reveal before the delay has passed fails `TooEarly`. -/
theorem mintForImpl_tooEarly (env : HashEnv) (committer recipient : Address)
    (bn : Nat) (pbh : B32) (secret : B32) (s : State)
    (hphase : s.saleState = SaleState.PublicSale) (hrec : recipient ≠ 0)
    (hc : (s.publicCommits committer).hash ≠ 0)
    (hbn : bn < earliestReveal (s.publicCommits committer)) :
    mintForImpl env committer recipient bn pbh secret s
      = Except.error Err.TooEarly := by
  unfold mintForImpl
  rw [if_neg (by simp [hphase]), if_neg hrec, if_neg hc, if_pos hbn]

/-- A public reveal after the expiry block fails `Expired`. -/
theorem mintForImpl_expired (env : HashEnv) (committer recipient : Address)
    (bn : Nat) (pbh : B32) (secret : B32) (s : State)
    (hphase : s.saleState = SaleState.PublicSale) (hrec : recipient ≠ 0)
    (hc : (s.publicCommits committer).hash ≠ 0)
    (hbn : expiryBlock (s.publicCommits committer) < bn) :
    mintForImpl env committer recipient bn pbh secret s
      = Except.error Err.Expired := by
  unfold mintForImpl
  have hnotEarly : ¬ bn < earliestReveal (s.publicCommits committer) := by
    unfold earliestReveal
    unfold expiryBlock at hbn
    omega
  rw [if_neg (by simp [hphase]), if_neg hrec, if_neg hc, if_neg hnotEarly,
    if_pos hbn]

/-- Success evaluation of `_mintForImpl`: all preconditions passing, the call
is exactly the mint from the state with commitment and escrow consumed. -/
theorem mintForImpl_ok (env : HashEnv) (committer recipient : Address)
    (bn : Nat) (pbh : B32) (secret : B32) (s : State)
    (hphase : s.saleState = SaleState.PublicSale) (hrec : recipient ≠ 0)
    (hc : (s.publicCommits committer).hash ≠ 0)
    (h1 : earliestReveal (s.publicCommits committer) ≤ bn)
    (h2 : bn ≤ expiryBlock (s.publicCommits committer))
    (hsec : env.keccakEnc secret = (s.publicCommits committer).hash)
    (hesc : s.publicEscrow committer = MINT_PRICE) :
    mintForImpl env committer recipient bn pbh secret s
      = mintRandom env pbh recipient secret (afterConsume committer s) := by
  unfold mintForImpl
  rw [if_neg (by simp [hphase]), if_neg hrec, if_neg hc,
    if_neg (Nat.not_lt.mpr h1), if_neg (Nat.not_lt.mpr h2),
    if_neg (by simp [hsec]), if_neg (by simp [hesc])]
  rfl

/-- A public reveal never succeeds for the zero recipient. -/
theorem mintForImpl_zeroRecipient (env : HashEnv) (committer : Address)
    (bn : Nat) (pbh : B32) (secret : B32) (s : State) :
    ∀ s', mintForImpl env committer 0 bn pbh secret s ≠ Except.ok s' := by
  intro s' h
  unfold mintForImpl at h
  split at h
  · simp at h
  · rw [if_pos rfl] at h
    simp at h

/-- C2: commit of `keccak(abi.encode(secret))` followed, anywhere inside the
reveal window, by a reveal of the same secret succeeds exactly once: the
commit succeeds, a second commit while the commitment is live fails
`AlreadyCommitted`, the reveal succeeds, and a second reveal after the first
fails `NoCommit`. -/
theorem commit_reveal_round_trip (env : HashEnv) (A : Address) (b rb : Nat)
    (pbh : B32) (idx : Nat) (sec : B32) (proof : List B32) (s : State)
    (hphase : s.saleState = SaleState.Presale)
    (hnc : (s.airdropCommits A).hash = 0)
    (hh : env.keccakEnc sec ≠ 0)
    (hrb1 : b + REVEAL_DELAY ≤ rb)
    (hrb2 : rb ≤ b + REVEAL_DELAY + REVEAL_WINDOW)
    (hmp : merkleVerify env proof s.merkleRoot (env.keccakLeaf idx A) = true)
    (hclaim : claimedCur s idx = false)
    (hinv : Inv s) (hroom : s.totalMinted + 1 < MAX_SUPPLY) (hA : A ≠ 0) :
    ∃ s1 s2,
      commitAirdrop A b (env.keccakEnc sec) s = Except.ok s1 ∧
      (∀ (b2 : Nat) (h2 : B32),
        commitAirdrop A b2 h2 s1 = Except.error Err.AlreadyCommitted) ∧
      revealAirdrop env A rb pbh idx sec proof s1 = Except.ok s2 ∧
      (∀ (rb2 : Nat) (pbh2 : B32) (idx2 : Nat) (sec2 : B32) (proof2 : List B32),
        revealAirdrop env A rb2 pbh2 idx2 sec2 proof2 s2
          = Except.error Err.NoCommit) := by
  refine ⟨{ s with airdropCommits := upd s.airdropCommits A ⟨env.keccakEnc sec, b⟩ },
    ?_, commitAirdrop_ok A b (env.keccakEnc sec) s hphase hnc, ?_, ?_, ?_⟩
  case refine_1 =>
    exact mintResult env pbh A sec (afterClaim A idx
      { s with airdropCommits := upd s.airdropCommits A ⟨env.keccakEnc sec, b⟩ })
  all_goals
    set s1 : State :=
      { s with airdropCommits := upd s.airdropCommits A ⟨env.keccakEnc sec, b⟩ }
      with hs1def
  · -- second commit while live
    intro b2 h2
    apply commitAirdrop_already A b2 h2 s1 hphase
    show (upd s.airdropCommits A ⟨env.keccakEnc sec, b⟩ A).hash ≠ 0
    rw [upd_same]
    exact hh
  · -- the reveal succeeds
    have hcommit : s1.airdropCommits A = ⟨env.keccakEnc sec, b⟩ :=
      upd_same s.airdropCommits A ⟨env.keccakEnc sec, b⟩
    have hrok := revealAirdrop_ok env A rb pbh idx sec proof s1 hphase
      (by rw [hcommit]; exact hh)
      (by rw [hcommit]; exact hrb1)
      (by rw [hcommit]; exact hrb2)
      (by rw [hcommit]) hmp hclaim
    rw [hrok]
    have hframe := claimStore_frame idx s1
    have hinvAC : Inv (afterClaim A idx s1) :=
      inv_congr (inv_congr hinv rfl rfl rfl) hframe.1 hframe.2.1 hframe.2.2.1
    have hroomAC : (afterClaim A idx s1).totalMinted < MAX_SUPPLY := by
      have ht : (afterClaim A idx s1).totalMinted = s.totalMinted := hframe.1
      omega
    exact mintRandom_ok_of env pbh A sec (afterClaim A idx s1) hinvAC hroomAC hA
  · -- second reveal after success
    intro rb2 pbh2 idx2 sec2 proof2
    have hframe := claimStore_frame idx s1
    apply revealAirdrop_noCommit
    · show (if (afterClaim A idx s1).totalMinted + 1 ≥ MAX_SUPPLY
          then SaleState.SoldOut else (afterClaim A idx s1).saleState)
        = SaleState.Presale
      have ht : (afterClaim A idx s1).totalMinted = s.totalMinted := hframe.1
      rw [ht, if_neg (by omega)]
      show (claimStore idx s1).saleState = SaleState.Presale
      rw [hframe.2.2.2.2.2.2.1]
      exact hphase
    · show (upd (claimStore idx s1).airdropCommits A ⟨0, 0⟩ A).hash = 0
      rw [upd_same]

/-- Witness for C2 at a concrete deployment, committer, secret and window. -/
theorem commit_reveal_round_trip_witness :
    ∃ s1 s2,
      commitAirdrop 1 100 (envA.keccakEnc 5)
        { initState 9 8 [] with saleState := SaleState.Presale } = Except.ok s1 ∧
      (∀ (b2 : Nat) (h2 : B32),
        commitAirdrop 1 b2 h2 s1 = Except.error Err.AlreadyCommitted) ∧
      revealAirdrop envA 1 110 0 0 5 [] s1 = Except.ok s2 ∧
      (∀ (rb2 : Nat) (pbh2 : B32) (idx2 : Nat) (sec2 : B32) (proof2 : List B32),
        revealAirdrop envA 1 rb2 pbh2 idx2 sec2 proof2 s2
          = Except.error Err.NoCommit) :=
  commit_reveal_round_trip envA 1 100 110 0 0 5 []
    { initState 9 8 [] with saleState := SaleState.Presale }
    rfl rfl (by decide) (by decide) (by decide) (by decide) rfl
    (inv_congr (inv_init 9 8 []) rfl rfl rfl) (by decide) (by decide)

/-- Full success evaluation of `revealAirdrop` including the mint. -/
theorem revealAirdrop_ok_full (env : HashEnv) (A : Address) (bn : Nat)
    (pbh : B32) (idx : Nat) (sec : B32) (proof : List B32) (s : State)
    (hphase : s.saleState = SaleState.Presale)
    (hc : (s.airdropCommits A).hash ≠ 0)
    (h1 : earliestReveal (s.airdropCommits A) ≤ bn)
    (h2 : bn ≤ expiryBlock (s.airdropCommits A))
    (hsec : env.keccakEnc sec = (s.airdropCommits A).hash)
    (hmp : merkleVerify env proof s.merkleRoot (env.keccakLeaf idx A) = true)
    (hclaim : claimedCur s idx = false)
    (hinv : Inv s) (hroom : s.totalMinted < MAX_SUPPLY) (hA : A ≠ 0) :
    revealAirdrop env A bn pbh idx sec proof s
      = Except.ok (mintResult env pbh A sec (afterClaim A idx s)) := by
  rw [revealAirdrop_ok env A bn pbh idx sec proof s hphase hc h1 h2 hsec hmp hclaim]
  have hframe := claimStore_frame idx s
  have hinvAC : Inv (afterClaim A idx s) :=
    inv_congr hinv hframe.1 hframe.2.1 hframe.2.2.1
  have hroomAC : (afterClaim A idx s).totalMinted < MAX_SUPPLY := by
    have ht : (afterClaim A idx s).totalMinted = s.totalMinted := hframe.1
    omega
  exact mintRandom_ok_of env pbh A sec (afterClaim A idx s) hinvAC hroomAC hA

/-- Full success evaluation of `_mintForImpl` including the mint. -/
theorem mintForImpl_ok_full (env : HashEnv) (committer recipient : Address)
    (bn : Nat) (pbh : B32) (secret : B32) (s : State)
    (hphase : s.saleState = SaleState.PublicSale) (hrec : recipient ≠ 0)
    (hc : (s.publicCommits committer).hash ≠ 0)
    (h1 : earliestReveal (s.publicCommits committer) ≤ bn)
    (h2 : bn ≤ expiryBlock (s.publicCommits committer))
    (hsec : env.keccakEnc secret = (s.publicCommits committer).hash)
    (hesc : s.publicEscrow committer = MINT_PRICE)
    (hinv : Inv s) (hroom : s.totalMinted < MAX_SUPPLY) :
    mintForImpl env committer recipient bn pbh secret s
      = Except.ok (mintResult env pbh recipient secret (afterConsume committer s)) := by
  rw [mintForImpl_ok env committer recipient bn pbh secret s hphase hrec hc h1 h2
    hsec hesc]
  have hinvAC : Inv (afterConsume committer s) := inv_congr hinv rfl rfl rfl
  exact mintRandom_ok_of env pbh recipient secret (afterConsume committer s)
    hinvAC hroom hrec

/-- C3: both bounds of the reveal interval are inclusive, for the presale
reveal and for the public reveal alike: reveal at the expiry block succeeds,
any later block fails `Expired`, any block before `commitBlock + REVEAL_DELAY`
fails `TooEarly`, and the earliest-reveal block succeeds. -/
theorem reveal_window_boundaries (env : HashEnv) (A R : Address) (idx : Nat)
    (sec secP : B32) (proof : List B32) (pbh : B32) (s t : State)
    (hphase : s.saleState = SaleState.Presale)
    (hc : (s.airdropCommits A).hash ≠ 0)
    (hsec : env.keccakEnc sec = (s.airdropCommits A).hash)
    (hmp : merkleVerify env proof s.merkleRoot (env.keccakLeaf idx A) = true)
    (hclaim : claimedCur s idx = false)
    (hinv : Inv s) (hroom : s.totalMinted < MAX_SUPPLY) (hA : A ≠ 0)
    (hphaseP : t.saleState = SaleState.PublicSale)
    (hcP : (t.publicCommits A).hash ≠ 0)
    (hsecP : env.keccakEnc secP = (t.publicCommits A).hash)
    (hescP : t.publicEscrow A = MINT_PRICE)
    (hinvP : Inv t) (hroomP : t.totalMinted < MAX_SUPPLY) (hR : R ≠ 0) :
    (∃ s', revealAirdrop env A (expiryBlock (s.airdropCommits A)) pbh idx sec
      proof s = Except.ok s') ∧
    (∀ bn, expiryBlock (s.airdropCommits A) < bn →
      revealAirdrop env A bn pbh idx sec proof s = Except.error Err.Expired) ∧
    (∀ bn, bn < earliestReveal (s.airdropCommits A) →
      revealAirdrop env A bn pbh idx sec proof s = Except.error Err.TooEarly) ∧
    (∃ s', revealAirdrop env A (earliestReveal (s.airdropCommits A)) pbh idx sec
      proof s = Except.ok s') ∧
    (∃ t', mintFor env A R (expiryBlock (t.publicCommits A)) pbh secP t
      = Except.ok t') ∧
    (∀ bn, expiryBlock (t.publicCommits A) < bn →
      mintFor env A R bn pbh secP t = Except.error Err.Expired) ∧
    (∀ bn, bn < earliestReveal (t.publicCommits A) →
      mintFor env A R bn pbh secP t = Except.error Err.TooEarly) ∧
    (∃ t', mintFor env A R (earliestReveal (t.publicCommits A)) pbh secP t
      = Except.ok t') := by
  have hee : ∀ c : Commit, earliestReveal c ≤ expiryBlock c := by
    intro c
    unfold earliestReveal expiryBlock
    omega
  refine ⟨⟨_, revealAirdrop_ok_full env A _ pbh idx sec proof s hphase hc
      (hee _) (Nat.le_refl _) hsec hmp hclaim hinv hroom hA⟩,
    ?_, ?_,
    ⟨_, revealAirdrop_ok_full env A _ pbh idx sec proof s hphase hc
      (Nat.le_refl _) (hee _) hsec hmp hclaim hinv hroom hA⟩,
    ⟨_, mintForImpl_ok_full env A R _ pbh secP t hphaseP hR hcP
      (hee _) (Nat.le_refl _) hsecP hescP hinvP hroomP⟩,
    ?_, ?_,
    ⟨_, mintForImpl_ok_full env A R _ pbh secP t hphaseP hR hcP
      (Nat.le_refl _) (hee _) hsecP hescP hinvP hroomP⟩⟩
  · intro bn hbn
    exact revealAirdrop_expired env A bn pbh idx sec proof s hphase hc hbn
  · intro bn hbn
    exact revealAirdrop_tooEarly env A bn pbh idx sec proof s hphase hc hbn
  · intro bn hbn
    exact mintForImpl_expired env A R bn pbh secP t hphaseP hR hcP hbn
  · intro bn hbn
    exact mintForImpl_tooEarly env A R bn pbh secP t hphaseP hR hcP hbn

/-- Witness for C3 on concrete presale and public-phase states. -/
theorem reveal_window_boundaries_witness :
    (∃ s', revealAirdrop envA 1 7310 0 0 5 []
      { initState 9 8 [] with
        saleState := SaleState.Presale,
        airdropCommits := upd (fun _ => ⟨0, 0⟩) 1 ⟨6, 100⟩ } = Except.ok s') ∧
    (∀ bn, 7310 < bn →
      revealAirdrop envA 1 bn 0 0 5 []
        { initState 9 8 [] with
          saleState := SaleState.Presale,
          airdropCommits := upd (fun _ => ⟨0, 0⟩) 1 ⟨6, 100⟩ }
        = Except.error Err.Expired) ∧
    (∀ bn, bn < 110 →
      revealAirdrop envA 1 bn 0 0 5 []
        { initState 9 8 [] with
          saleState := SaleState.Presale,
          airdropCommits := upd (fun _ => ⟨0, 0⟩) 1 ⟨6, 100⟩ }
        = Except.error Err.TooEarly) ∧
    (∃ s', revealAirdrop envA 1 110 0 0 5 []
      { initState 9 8 [] with
        saleState := SaleState.Presale,
        airdropCommits := upd (fun _ => ⟨0, 0⟩) 1 ⟨6, 100⟩ } = Except.ok s') ∧
    (∃ t', mintFor envA 1 2 7310 0 5
      { initState 9 8 [] with
        saleState := SaleState.PublicSale,
        publicCommits := upd (fun _ => ⟨0, 0⟩) 1 ⟨6, 100⟩,
        publicEscrow := upd (fun _ => 0) 1 MINT_PRICE } = Except.ok t') ∧
    (∀ bn, 7310 < bn →
      mintFor envA 1 2 bn 0 5
        { initState 9 8 [] with
          saleState := SaleState.PublicSale,
          publicCommits := upd (fun _ => ⟨0, 0⟩) 1 ⟨6, 100⟩,
          publicEscrow := upd (fun _ => 0) 1 MINT_PRICE }
        = Except.error Err.Expired) ∧
    (∀ bn, bn < 110 →
      mintFor envA 1 2 bn 0 5
        { initState 9 8 [] with
          saleState := SaleState.PublicSale,
          publicCommits := upd (fun _ => ⟨0, 0⟩) 1 ⟨6, 100⟩,
          publicEscrow := upd (fun _ => 0) 1 MINT_PRICE }
        = Except.error Err.TooEarly) ∧
    (∃ t', mintFor envA 1 2 110 0 5
      { initState 9 8 [] with
        saleState := SaleState.PublicSale,
        publicCommits := upd (fun _ => ⟨0, 0⟩) 1 ⟨6, 100⟩,
        publicEscrow := upd (fun _ => 0) 1 MINT_PRICE } = Except.ok t') :=
  reveal_window_boundaries envA 1 2 0 5 5 [] 0
    { initState 9 8 [] with
      saleState := SaleState.Presale,
      airdropCommits := upd (fun _ => ⟨0, 0⟩) 1 ⟨6, 100⟩ }
    { initState 9 8 [] with
      saleState := SaleState.PublicSale,
      publicCommits := upd (fun _ => ⟨0, 0⟩) 1 ⟨6, 100⟩,
      publicEscrow := upd (fun _ => 0) 1 MINT_PRICE }
    rfl (by decide) (by decide) (by decide) rfl
    (inv_congr (inv_init 9 8 []) rfl rfl rfl) (by decide) (by decide)
    rfl (by decide) (by decide) (by decide)
    (inv_congr (inv_init 9 8 []) rfl rfl rfl) (by decide) (by decide)

/-- C10: the public reveal resolves the commitment keyed by the transaction
sender, so a caller with no commitment under their own key fails `NoCommit`
even presenting the correct secret (likewise through the `revealPublicFor`
alias); the committer may direct the minted token to any nonzero recipient,
whose record lists that recipient as owner while the committer's commitment is
the one consumed; and a reveal naming the zero recipient never succeeds. -/
theorem public_reveal_sender_keyed (env : HashEnv)
    (caller committer recipient : Address) (bn : Nat) (pbh : B32)
    (secret : B32) (s : State)
    (hphase : s.saleState = SaleState.PublicSale)
    (hrec : recipient ≠ 0)
    (hcaller : (s.publicCommits caller).hash = 0)
    (hc : (s.publicCommits committer).hash ≠ 0)
    (h1 : earliestReveal (s.publicCommits committer) ≤ bn)
    (h2 : bn ≤ expiryBlock (s.publicCommits committer))
    (hsec : env.keccakEnc secret = (s.publicCommits committer).hash)
    (hesc : s.publicEscrow committer = MINT_PRICE)
    (hinv : Inv s) (hroom : s.totalMinted < MAX_SUPPLY) :
    mintFor env caller recipient bn pbh secret s = Except.error Err.NoCommit ∧
    revealPublicFor env caller recipient bn pbh secret s
      = Except.error Err.NoCommit ∧
    mintFor env committer recipient bn pbh secret s
      = Except.ok (mintResult env pbh recipient secret (afterConsume committer s)) ∧
    (mintResult env pbh recipient secret (afterConsume committer s)).mintedTokens
      = s.mintedTokens
        ++ [(mintAssigned env pbh recipient secret (afterConsume committer s),
             recipient)] ∧
    ((mintResult env pbh recipient secret (afterConsume committer s)).publicCommits
      committer).hash = 0 ∧
    (∀ a, a ≠ committer →
      (mintResult env pbh recipient secret (afterConsume committer s)).publicCommits a
        = s.publicCommits a) ∧
    (∀ (u : State) (c2 : Address) (bn2 : Nat) (pbh2 sec2 : B32) (u' : State),
      mintFor env c2 0 bn2 pbh2 sec2 u ≠ Except.ok u') := by
  refine ⟨mintForImpl_noCommit env caller recipient bn pbh secret s hphase hrec
      hcaller,
    mintForImpl_noCommit env caller recipient bn pbh secret s hphase hrec hcaller,
    mintForImpl_ok_full env committer recipient bn pbh secret s hphase hrec hc
      h1 h2 hsec hesc hinv hroom,
    rfl, ?_, ?_, ?_⟩
  · show (upd s.publicCommits committer ⟨0, 0⟩ committer).hash = 0
    rw [upd_same]
  · intro a ha
    show upd s.publicCommits committer ⟨0, 0⟩ a = s.publicCommits a
    exact upd_other s.publicCommits committer ⟨0, 0⟩ a ha
  · intro u c2 bn2 pbh2 sec2 u'
    exact mintForImpl_zeroRecipient env c2 bn2 pbh2 sec2 u u'

/-- Witness for C10 on a concrete public-phase state with one committer. -/
theorem public_reveal_sender_keyed_witness :
    mintFor envA 3 2 110 0 5
      { initState 9 8 [] with
        saleState := SaleState.PublicSale,
        publicCommits := upd (fun _ => ⟨0, 0⟩) 1 ⟨6, 100⟩,
        publicEscrow := upd (fun _ => 0) 1 MINT_PRICE }
      = Except.error Err.NoCommit ∧
    revealPublicFor envA 3 2 110 0 5
      { initState 9 8 [] with
        saleState := SaleState.PublicSale,
        publicCommits := upd (fun _ => ⟨0, 0⟩) 1 ⟨6, 100⟩,
        publicEscrow := upd (fun _ => 0) 1 MINT_PRICE }
      = Except.error Err.NoCommit ∧
    mintFor envA 1 2 110 0 5
      { initState 9 8 [] with
        saleState := SaleState.PublicSale,
        publicCommits := upd (fun _ => ⟨0, 0⟩) 1 ⟨6, 100⟩,
        publicEscrow := upd (fun _ => 0) 1 MINT_PRICE }
      = Except.ok (mintResult envA 0 2 5 (afterConsume 1
        { initState 9 8 [] with
          saleState := SaleState.PublicSale,
          publicCommits := upd (fun _ => ⟨0, 0⟩) 1 ⟨6, 100⟩,
          publicEscrow := upd (fun _ => 0) 1 MINT_PRICE })) ∧
    (mintResult envA 0 2 5 (afterConsume 1
      { initState 9 8 [] with
        saleState := SaleState.PublicSale,
        publicCommits := upd (fun _ => ⟨0, 0⟩) 1 ⟨6, 100⟩,
        publicEscrow := upd (fun _ => 0) 1 MINT_PRICE })).mintedTokens
      = ({ initState 9 8 [] with
          saleState := SaleState.PublicSale,
          publicCommits := upd (fun _ => ⟨0, 0⟩) 1 ⟨6, 100⟩,
          publicEscrow := upd (fun _ => 0) 1 MINT_PRICE } : State).mintedTokens
        ++ [(mintAssigned envA 0 2 5 (afterConsume 1
          { initState 9 8 [] with
            saleState := SaleState.PublicSale,
            publicCommits := upd (fun _ => ⟨0, 0⟩) 1 ⟨6, 100⟩,
            publicEscrow := upd (fun _ => 0) 1 MINT_PRICE }), 2)] ∧
    ((mintResult envA 0 2 5 (afterConsume 1
      { initState 9 8 [] with
        saleState := SaleState.PublicSale,
        publicCommits := upd (fun _ => ⟨0, 0⟩) 1 ⟨6, 100⟩,
        publicEscrow := upd (fun _ => 0) 1 MINT_PRICE })).publicCommits 1).hash
      = 0 ∧
    (∀ a, a ≠ 1 →
      (mintResult envA 0 2 5 (afterConsume 1
        { initState 9 8 [] with
          saleState := SaleState.PublicSale,
          publicCommits := upd (fun _ => ⟨0, 0⟩) 1 ⟨6, 100⟩,
          publicEscrow := upd (fun _ => 0) 1 MINT_PRICE })).publicCommits a
        = ({ initState 9 8 [] with
            saleState := SaleState.PublicSale,
            publicCommits := upd (fun _ => ⟨0, 0⟩) 1 ⟨6, 100⟩,
            publicEscrow := upd (fun _ => 0) 1 MINT_PRICE } : State).publicCommits a) ∧
    (∀ (u : State) (c2 : Address) (bn2 : Nat) (pbh2 sec2 : B32) (u' : State),
      mintFor envA c2 0 bn2 pbh2 sec2 u ≠ Except.ok u') :=
  public_reveal_sender_keyed envA 3 1 2 110 0 5
    { initState 9 8 [] with
      saleState := SaleState.PublicSale,
      publicCommits := upd (fun _ => ⟨0, 0⟩) 1 ⟨6, 100⟩,
      publicEscrow := upd (fun _ => 0) 1 MINT_PRICE }
    rfl (by decide) (by decide) (by decide) (by decide) (by decide) (by decide)
    (by decide) (inv_congr (inv_init 9 8 []) rfl rfl rfl) (by decide)

/-! Claimed-set accounting (claim C4). -/

theorem bitGet_bitSet (bm : Nat → Nat) (i j : Nat) :
    bitGet (bitSet bm i) j = (decide (j = i) || bitGet bm j) := by
  unfold bitGet bitSet
  by_cases hb : j / 256 = i / 256
  · rw [hb, upd_same, Nat.testBit_or]
    by_cases hij : j = i
    · subst hij
      rw [Nat.one_shiftLeft]
      simp [Nat.testBit_two_pow_self]
    · have hm : i % 256 ≠ j % 256 := by
        intro hmod
        apply hij
        omega
      rw [Nat.one_shiftLeft, Nat.testBit_two_pow_of_ne hm]
      simp [hij, hb]
  · have hij : j ≠ i := by
      intro h
      exact hb (by rw [h])
    rw [upd_other _ _ _ _ hb]
    simp [hij]

theorem claimedCur_claimStore (index j : Nat) (s : State) :
    claimedCur (claimStore index s) j = (decide (j = index) || claimedCur s j) := by
  unfold claimedCur claimStore
  split
  · rename_i hu
    simp only [hu, if_true]
    exact bitGet_bitSet s.claimedBitmap index j
  · rename_i hu
    simp only [eq_false_of_ne_true hu, if_false]
    unfold upd
    by_cases hij : j = index <;> simp [hij]

theorem claimCheckSet_ok_shape (index : Nat) (s s1 : State)
    (h : claimCheckSet index s = Except.ok s1) :
    claimedCur s index = false ∧ s1 = claimStore index s := by
  unfold claimCheckSet at h
  unfold claimStore claimedCur
  split at h <;> split at h <;> simp_all

/-- Per-index claim accounting invariant: each index has been consumed at most
once, and a consumed index is marked claimed in the current representation. -/
def ClaimInv (s : State) : Prop :=
  ∀ i, s.claimCount i ≤ 1 ∧ (1 ≤ s.claimCount i → claimedCur s i = true)

theorem claimedCur_congr {s s' : State} (i : Nat)
    (h2 : s'.useBitmapForAirdrop = s.useBitmapForAirdrop)
    (h3 : s'.claimedBitmap = s.claimedBitmap)
    (h4 : s'.claimedMap = s.claimedMap) : claimedCur s' i = claimedCur s i := by
  unfold claimedCur
  rw [h2, h3, h4]

theorem claimInv_congr {s s' : State} (h : ClaimInv s)
    (h1 : s'.claimCount = s.claimCount)
    (h2 : s'.useBitmapForAirdrop = s.useBitmapForAirdrop)
    (h3 : s'.claimedBitmap = s.claimedBitmap)
    (h4 : s'.claimedMap = s.claimedMap) : ClaimInv s' := by
  intro i
  rw [h1, claimedCur_congr i h2 h3 h4]
  exact h i

/-- Structure of a successful `revealAirdrop`, as seen by the claim
accounting. -/
theorem revealAirdrop_ok_claim_shape (env : HashEnv) (sender : Address)
    (bn : Nat) (pbh : B32) (index : Nat) (secret : B32) (proof : List B32)
    (s s' : State)
    (h : revealAirdrop env sender bn pbh index secret proof s = Except.ok s') :
    claimedCur s index = false ∧
    s'.claimCount = upd s.claimCount index (s.claimCount index + 1) ∧
    (∀ j, claimedCur s' j = (decide (j = index) || claimedCur s j)) := by
  unfold revealAirdrop at h
  split at h
  · simp at h
  · split at h
    · simp at h
    · split at h
      · simp at h
      · split at h
        · simp at h
        · split at h
          · simp at h
          · split at h
            · simp at h
            · split at h
              · simp at h
              · rename_i s1 heq
                obtain ⟨hfresh, hs1⟩ := claimCheckSet_ok_shape index s s1 heq
                subst hs1
                rw [mintRandom_ok_iff] at h
                obtain ⟨-, -, -, rfl⟩ := h
                have hframe := claimStore_frame index s
                refine ⟨hfresh, ?_, ?_⟩
                · show upd (claimStore index s).claimCount index
                    ((claimStore index s).claimCount index + 1)
                    = upd s.claimCount index (s.claimCount index + 1)
                  rw [hframe.2.2.2.2.2.2.2.2.2.1]
                · intro j
                  have hcc : claimedCur (mintResult env pbh sender secret
                      { claimStore index s with
                        airdropCommits :=
                          upd (claimStore index s).airdropCommits sender ⟨0, 0⟩,
                        claimCount := upd (claimStore index s).claimCount index
                          ((claimStore index s).claimCount index + 1) }) j
                      = claimedCur (claimStore index s) j :=
                    claimedCur_congr j rfl rfl rfl
                  rw [hcc, claimedCur_claimStore index j s]

theorem step_claimInv (env : HashEnv) (s : State) (op : Op) (h : ClaimInv s)
    (hop : noToggle op) : ClaimInv (exec env s op) := by
  unfold exec
  cases hstep : step env s op with
  | error e => exact h
  | ok s' =>
    cases op with
    | setSaleState sender ns =>
      simp only [step] at hstep
      unfold setSaleState at hstep
      split at hstep
      · simp at hstep
      · injection hstep with he
        subst he
        exact claimInv_congr h rfl rfl rfl rfl
    | setUseBitmap sender b => exact absurd hop (by simp [noToggle])
    | commitAirdrop sender bn ch =>
      simp only [step] at hstep
      unfold commitAirdrop at hstep
      split at hstep
      · simp at hstep
      · split at hstep
        · simp at hstep
        · injection hstep with he
          subst he
          exact claimInv_congr h rfl rfl rfl rfl
    | revealAirdrop sender bn pbh index secret proof =>
      simp only [step] at hstep
      obtain ⟨hfresh, hcount, hclaimed⟩ :=
        revealAirdrop_ok_claim_shape env sender bn pbh index secret proof s s' hstep
      intro i
      by_cases hi : i = index
      · subst hi
        have hzero : s.claimCount i = 0 := by
          by_contra hnz
          have h1 : 1 ≤ s.claimCount i := by omega
          rw [(h i).2 h1] at hfresh
          simp at hfresh
        constructor
        · rw [hcount, upd_same, hzero]
        · intro _
          rw [hclaimed i]
          simp
      · constructor
        · rw [hcount, upd_other _ _ _ _ hi]
          exact (h i).1
        · intro hge
          rw [hcount, upd_other _ _ _ _ hi] at hge
          rw [hclaimed i]
          rw [(h i).2 hge]
          simp
    | commitPublic sender bn v ch =>
      simp only [step] at hstep
      unfold commitPublic at hstep
      split at hstep
      · simp at hstep
      · split at hstep
        · simp at hstep
        · split at hstep
          · simp at hstep
          · injection hstep with he
            subst he
            exact claimInv_congr h rfl rfl rfl rfl
    | mintFor sender recipient bn pbh secret =>
      simp only [step] at hstep
      unfold mintFor mintForImpl at hstep
      split at hstep
      · simp at hstep
      · split at hstep
        · simp at hstep
        · split at hstep
          · simp at hstep
          · split at hstep
            · simp at hstep
            · split at hstep
              · simp at hstep
              · split at hstep
                · simp at hstep
                · split at hstep
                  · simp at hstep
                  · rw [mintRandom_ok_iff] at hstep
                    obtain ⟨-, -, -, rfl⟩ := hstep
                    exact claimInv_congr h rfl rfl rfl rfl
    | cancelAirdropCommit sender =>
      simp only [step] at hstep
      unfold cancelAirdropCommit at hstep
      split at hstep
      · simp at hstep
      · injection hstep with he
        subst he
        exact claimInv_congr h rfl rfl rfl rfl
    | ownerCancelExpiredAirdrop sender user bn =>
      simp only [step] at hstep
      unfold ownerCancelExpiredAirdrop at hstep
      split at hstep
      · simp at hstep
      · split at hstep
        · simp at hstep
        · split at hstep
          · simp at hstep
          · injection hstep with he
            subst he
            exact claimInv_congr h rfl rfl rfl rfl
    | cancelPublicCommit sender =>
      simp only [step] at hstep
      unfold cancelPublicCommit at hstep
      split at hstep
      · simp at hstep
      · split at hstep
        · simp at hstep
        · injection hstep with he
          subst he
          exact claimInv_congr h rfl rfl rfl rfl
    | ownerCancelExpiredPublic sender user bn =>
      simp only [step] at hstep
      unfold ownerCancelExpiredPublic at hstep
      split at hstep
      · simp at hstep
      · split at hstep
        · simp at hstep
        · split at hstep
          · simp at hstep
          · split at hstep
            · simp at hstep
            · injection hstep with he
              subst he
              exact claimInv_congr h rfl rfl rfl rfl
    | distributeFunds sender =>
      simp only [step] at hstep
      unfold distributeFunds at hstep
      split at hstep
      · simp at hstep
      · split at hstep
        · simp at hstep
        · injection hstep with he
          subst he
          exact claimInv_congr h rfl rfl rfl rfl
    | withdraw sender =>
      simp only [step] at hstep
      unfold withdraw at hstep
      split at hstep
      · simp at hstep
      · split at hstep
        · simp at hstep
        · injection hstep with he
          subst he
          exact claimInv_congr h rfl rfl rfl rfl
    | deposit amount =>
      simp only [step] at hstep
      unfold deposit at hstep
      injection hstep with he
      subst he
      exact claimInv_congr h rfl rfl rfl rfl

theorem run_claimInv (env : HashEnv) (s : State) (ops : List Op)
    (h : ClaimInv s) (hops : ∀ op ∈ ops, noToggle op) :
    ClaimInv (run env s ops) := by
  induction ops generalizing s with
  | nil => exact h
  | cons op ops ih =>
    exact ih (exec env s op)
      (step_claimInv env s op h (hops op (List.mem_cons_self op ops)))
      (fun o ho => hops o (List.mem_cons_of_mem op ho))

theorem claimInv_init (deployer : Address) (root : B32)
    (cs : List (Address × Nat)) : ClaimInv (initState deployer root cs) := by
  intro i
  refine ⟨by simp [initState], ?_⟩
  intro h
  simp [initState] at h

/-- C4 counterexample: the boolean map and the bitmap are separate stores, so
toggling the representation between two reveals lets the same allowlist index
be consumed twice — after this trace the history records two successful
reveals of index 0, refuting the unrestricted at-most-once claim. -/
theorem double_claim_across_toggle :
    (run envA (initState 9 8 []) trToggleDoubleClaim).claimCount 0 = 2 ∧
    ¬ (run envA (initState 9 8 []) trToggleDoubleClaim).claimCount 0 ≤ 1 := by
  constructor <;> decide

/-- C4 amended: provided the representation toggle is never changed, at most
one successful allowlist reveal ever consumes an index; the two
representations are pointwise semantically identical claimed-set stores; and a
second reveal attempt on an already-claimed index fails `AlreadyClaimed`. -/
theorem no_double_claim_fixed_representation (env : HashEnv)
    (deployer : Address) (root : B32) (cs : List (Address × Nat))
    (ops : List Op) (hops : ∀ op ∈ ops, noToggle op) :
    (∀ i, (run env (initState deployer root cs) ops).claimCount i ≤ 1) ∧
    (∀ (bm : Nat → Nat) (i j : Nat),
      bitGet (bitSet bm i) j = (decide (j = i) || bitGet bm j)) ∧
    (∀ (m : Nat → Bool) (i j : Nat),
      upd m i true j = (decide (j = i) || m j)) ∧
    (∀ (sender : Address) (bn : Nat) (pbh : B32) (index : Nat) (secret : B32)
       (proof : List B32) (t : State),
      t.saleState = SaleState.Presale →
      (t.airdropCommits sender).hash ≠ 0 →
      earliestReveal (t.airdropCommits sender) ≤ bn →
      bn ≤ expiryBlock (t.airdropCommits sender) →
      env.keccakEnc secret = (t.airdropCommits sender).hash →
      merkleVerify env proof t.merkleRoot (env.keccakLeaf index sender) = true →
      claimedCur t index = true →
      revealAirdrop env sender bn pbh index secret proof t
        = Except.error Err.AlreadyClaimed) := by
  refine ⟨?_, bitGet_bitSet, ?_, ?_⟩
  · intro i
    exact ((run_claimInv env (initState deployer root cs) ops
      (claimInv_init deployer root cs) hops) i).1
  · intro m i j
    unfold upd
    by_cases h : j = i <;> simp [h]
  · intro sender bn pbh index secret proof t h1 h2 h3 h4 h5 h6 h7
    exact revealAirdrop_alreadyClaimed env sender bn pbh index secret proof t
      h1 h2 h3 h4 h5 h6 h7

/-- Witness for the amended C4 on a toggle-free trace with one real claim. -/
theorem no_double_claim_fixed_representation_witness :
    (∀ i, (run envA (initState 9 8 []) trOneMint).claimCount i ≤ 1) ∧
    (∀ (bm : Nat → Nat) (i j : Nat),
      bitGet (bitSet bm i) j = (decide (j = i) || bitGet bm j)) ∧
    (∀ (m : Nat → Bool) (i j : Nat),
      upd m i true j = (decide (j = i) || m j)) ∧
    (∀ (sender : Address) (bn : Nat) (pbh : B32) (index : Nat) (secret : B32)
       (proof : List B32) (t : State),
      t.saleState = SaleState.Presale →
      (t.airdropCommits sender).hash ≠ 0 →
      earliestReveal (t.airdropCommits sender) ≤ bn →
      bn ≤ expiryBlock (t.airdropCommits sender) →
      envA.keccakEnc secret = (t.airdropCommits sender).hash →
      merkleVerify envA proof t.merkleRoot (envA.keccakLeaf index sender) = true →
      claimedCur t index = true →
      revealAirdrop envA sender bn pbh index secret proof t
        = Except.error Err.AlreadyClaimed) :=
  no_double_claim_fixed_representation envA 9 8 [] trOneMint
    (by intro op hop; fin_cases hop <;> exact trivial)

/-! Escrow/commitment pairing (claim C5). -/

/-- Escrow pairing invariant: escrow is strictly positive exactly under a live
public commitment, and then equals `MINT_PRICE`. -/
def EscrowInv (s : State) : Prop :=
  ∀ a, (0 < s.publicEscrow a ↔ (s.publicCommits a).hash ≠ 0) ∧
    ((s.publicCommits a).hash ≠ 0 → s.publicEscrow a = MINT_PRICE)

theorem escrowInv_congr {s s' : State} (h : EscrowInv s)
    (h1 : s'.publicCommits = s.publicCommits)
    (h2 : s'.publicEscrow = s.publicEscrow) : EscrowInv s' := by
  intro a
  rw [h1, h2]
  exact h a

theorem step_escrowInv (env : HashEnv) (s : State) (op : Op) (h : EscrowInv s)
    (hop : nonzeroCommit op) : EscrowInv (exec env s op) := by
  unfold exec
  cases hstep : step env s op with
  | error e => exact h
  | ok s' =>
    cases op with
    | setSaleState sender ns =>
      simp only [step] at hstep
      unfold setSaleState at hstep
      split at hstep
      · simp at hstep
      · injection hstep with he
        subst he
        exact escrowInv_congr h rfl rfl
    | setUseBitmap sender b =>
      simp only [step] at hstep
      unfold setUseBitmap at hstep
      split at hstep
      · simp at hstep
      · injection hstep with he
        subst he
        exact escrowInv_congr h rfl rfl
    | commitAirdrop sender bn ch =>
      simp only [step] at hstep
      unfold commitAirdrop at hstep
      split at hstep
      · simp at hstep
      · split at hstep
        · simp at hstep
        · injection hstep with he
          subst he
          exact escrowInv_congr h rfl rfl
    | revealAirdrop sender bn pbh index secret proof =>
      simp only [step] at hstep
      unfold revealAirdrop at hstep
      split at hstep
      · simp at hstep
      · split at hstep
        · simp at hstep
        · split at hstep
          · simp at hstep
          · split at hstep
            · simp at hstep
            · split at hstep
              · simp at hstep
              · split at hstep
                · simp at hstep
                · split at hstep
                  · simp at hstep
                  · rename_i s1 heq
                    obtain ⟨-, hs1⟩ := claimCheckSet_ok_shape index s s1 heq
                    subst hs1
                    rw [mintRandom_ok_iff] at hstep
                    obtain ⟨-, -, -, rfl⟩ := hstep
                    have hframe := claimStore_frame index s
                    exact escrowInv_congr h hframe.2.2.2.2.1 hframe.2.2.2.2.2.1
    | commitPublic sender bn v ch =>
      simp only [step] at hstep
      unfold commitPublic at hstep
      split at hstep
      · simp at hstep
      · split at hstep
        · simp at hstep
        · split at hstep
          · simp at hstep
          · rename_i hlive hval
            injection hstep with he
            subst he
            have hch : ch ≠ 0 := hop
            have hv : v = MINT_PRICE := by
              by_contra hv
              exact hval hv
            have hhash : (s.publicCommits sender).hash = 0 := by
              by_contra hx
              exact hlive hx
            have hesc0 : s.publicEscrow sender = 0 := by
              have hiff := (h sender).1
              by_contra hx
              have : 0 < s.publicEscrow sender := by omega
              exact (hiff.mp this) hhash
            intro a
            by_cases ha : a = sender
            · subst ha
              show (0 < upd s.publicEscrow a (s.publicEscrow a + v) a ↔
                  (upd s.publicCommits a ⟨ch, bn⟩ a).hash ≠ 0) ∧
                ((upd s.publicCommits a ⟨ch, bn⟩ a).hash ≠ 0 →
                  upd s.publicEscrow a (s.publicEscrow a + v) a = MINT_PRICE)
              rw [upd_same, upd_same, hesc0, hv]
              refine ⟨⟨fun _ => hch, fun _ => by decide⟩, fun _ => by simp⟩
            · show (0 < upd s.publicEscrow sender (s.publicEscrow sender + v) a ↔
                  (upd s.publicCommits sender ⟨ch, bn⟩ a).hash ≠ 0) ∧
                ((upd s.publicCommits sender ⟨ch, bn⟩ a).hash ≠ 0 →
                  upd s.publicEscrow sender (s.publicEscrow sender + v) a = MINT_PRICE)
              rw [upd_other _ _ _ _ ha, upd_other _ _ _ _ ha]
              exact h a
    | mintFor sender recipient bn pbh secret =>
      simp only [step] at hstep
      unfold mintFor mintForImpl at hstep
      split at hstep
      · simp at hstep
      · split at hstep
        · simp at hstep
        · split at hstep
          · simp at hstep
          · split at hstep
            · simp at hstep
            · split at hstep
              · simp at hstep
              · split at hstep
                · simp at hstep
                · split at hstep
                  · simp at hstep
                  · rw [mintRandom_ok_iff] at hstep
                    obtain ⟨-, -, -, rfl⟩ := hstep
                    intro a
                    by_cases ha : a = sender
                    · subst ha
                      show (0 < upd s.publicEscrow a 0 a ↔
                          (upd s.publicCommits a ⟨0, 0⟩ a).hash ≠ 0) ∧
                        ((upd s.publicCommits a ⟨0, 0⟩ a).hash ≠ 0 →
                          upd s.publicEscrow a 0 a = MINT_PRICE)
                      rw [upd_same, upd_same]
                      simp
                    · show (0 < upd s.publicEscrow sender 0 a ↔
                          (upd s.publicCommits sender ⟨0, 0⟩ a).hash ≠ 0) ∧
                        ((upd s.publicCommits sender ⟨0, 0⟩ a).hash ≠ 0 →
                          upd s.publicEscrow sender 0 a = MINT_PRICE)
                      rw [upd_other _ _ _ _ ha, upd_other _ _ _ _ ha]
                      exact h a
    | cancelAirdropCommit sender =>
      simp only [step] at hstep
      unfold cancelAirdropCommit at hstep
      split at hstep
      · simp at hstep
      · injection hstep with he
        subst he
        exact escrowInv_congr h rfl rfl
    | ownerCancelExpiredAirdrop sender user bn =>
      simp only [step] at hstep
      unfold ownerCancelExpiredAirdrop at hstep
      split at hstep
      · simp at hstep
      · split at hstep
        · simp at hstep
        · split at hstep
          · simp at hstep
          · injection hstep with he
            subst he
            exact escrowInv_congr h rfl rfl
    | cancelPublicCommit sender =>
      simp only [step] at hstep
      unfold cancelPublicCommit at hstep
      split at hstep
      · simp at hstep
      · split at hstep
        · simp at hstep
        · injection hstep with he
          subst he
          intro a
          by_cases ha : a = sender
          · subst ha
            show (0 < upd s.publicEscrow a 0 a ↔
                (upd s.publicCommits a ⟨0, 0⟩ a).hash ≠ 0) ∧
              ((upd s.publicCommits a ⟨0, 0⟩ a).hash ≠ 0 →
                upd s.publicEscrow a 0 a = MINT_PRICE)
            rw [upd_same, upd_same]
            simp
          · show (0 < upd s.publicEscrow sender 0 a ↔
                (upd s.publicCommits sender ⟨0, 0⟩ a).hash ≠ 0) ∧
              ((upd s.publicCommits sender ⟨0, 0⟩ a).hash ≠ 0 →
                upd s.publicEscrow sender 0 a = MINT_PRICE)
            rw [upd_other _ _ _ _ ha, upd_other _ _ _ _ ha]
            exact h a
    | ownerCancelExpiredPublic sender user bn =>
      simp only [step] at hstep
      unfold ownerCancelExpiredPublic at hstep
      split at hstep
      · simp at hstep
      · split at hstep
        · simp at hstep
        · split at hstep
          · simp at hstep
          · split at hstep
            · simp at hstep
            · injection hstep with he
              subst he
              intro a
              by_cases ha : a = user
              · subst ha
                show (0 < upd s.publicEscrow a 0 a ↔
                    (upd s.publicCommits a ⟨0, 0⟩ a).hash ≠ 0) ∧
                  ((upd s.publicCommits a ⟨0, 0⟩ a).hash ≠ 0 →
                    upd s.publicEscrow a 0 a = MINT_PRICE)
                rw [upd_same, upd_same]
                simp
              · show (0 < upd s.publicEscrow user 0 a ↔
                    (upd s.publicCommits user ⟨0, 0⟩ a).hash ≠ 0) ∧
                  ((upd s.publicCommits user ⟨0, 0⟩ a).hash ≠ 0 →
                    upd s.publicEscrow user 0 a = MINT_PRICE)
                rw [upd_other _ _ _ _ ha, upd_other _ _ _ _ ha]
                exact h a
    | distributeFunds sender =>
      simp only [step] at hstep
      unfold distributeFunds at hstep
      split at hstep
      · simp at hstep
      · split at hstep
        · simp at hstep
        · injection hstep with he
          subst he
          exact escrowInv_congr h rfl rfl
    | withdraw sender =>
      simp only [step] at hstep
      unfold withdraw at hstep
      split at hstep
      · simp at hstep
      · split at hstep
        · simp at hstep
        · injection hstep with he
          subst he
          exact escrowInv_congr h rfl rfl
    | deposit amount =>
      simp only [step] at hstep
      unfold deposit at hstep
      injection hstep with he
      subst he
      exact escrowInv_congr h rfl rfl

theorem run_escrowInv (env : HashEnv) (s : State) (ops : List Op)
    (h : EscrowInv s) (hops : ∀ op ∈ ops, nonzeroCommit op) :
    EscrowInv (run env s ops) := by
  induction ops generalizing s with
  | nil => exact h
  | cons op ops ih =>
    exact ih (exec env s op)
      (step_escrowInv env s op h (hops op (List.mem_cons_self op ops)))
      (fun o ho => hops o (List.mem_cons_of_mem op ho))

theorem escrowInv_init (deployer : Address) (root : B32)
    (cs : List (Address × Nat)) : EscrowInv (initState deployer root cs) := by
  intro a
  refine ⟨⟨fun hx => absurd hx (by simp [initState]), fun hx => ?_⟩, fun hx => ?_⟩
  · exact absurd hx (by simp [initState])
  · exact absurd hx (by simp [initState])

/-- A successful public reveal zeroes commitment and escrow together. -/
theorem mintForImpl_consumes (env : HashEnv) (committer recipient : Address)
    (bn : Nat) (pbh : B32) (secret : B32) (t t' : State)
    (h : mintForImpl env committer recipient bn pbh secret t = Except.ok t') :
    t'.publicEscrow committer = 0 ∧ (t'.publicCommits committer).hash = 0 := by
  unfold mintForImpl at h
  split at h
  · simp at h
  · split at h
    · simp at h
    · split at h
      · simp at h
      · split at h
        · simp at h
        · split at h
          · simp at h
          · split at h
            · simp at h
            · split at h
              · simp at h
              · rw [mintRandom_ok_iff] at h
                obtain ⟨-, -, -, rfl⟩ := h
                constructor
                · show upd t.publicEscrow committer 0 committer = 0
                  rw [upd_same]
                · show (upd t.publicCommits committer ⟨0, 0⟩ committer).hash = 0
                  rw [upd_same]

/-- A user cancel zeroes commitment and escrow and refunds exactly the escrow
held at the moment of cancellation. -/
theorem cancelPublicCommit_shape (sender : Address) (t t' : State)
    (h : cancelPublicCommit sender t = Except.ok t') :
    t'.publicEscrow sender = 0 ∧ (t'.publicCommits sender).hash = 0 ∧
    t'.balance = t.balance - t.publicEscrow sender := by
  unfold cancelPublicCommit at h
  split at h
  · simp at h
  · split at h
    · simp at h
    · injection h with he
      subst he
      refine ⟨?_, ?_, rfl⟩
      · show upd t.publicEscrow sender 0 sender = 0
        rw [upd_same]
      · show (upd t.publicCommits sender ⟨0, 0⟩ sender).hash = 0
        rw [upd_same]

/-- An owner force-cancel zeroes commitment and escrow and refunds exactly the
escrow held at the moment of cancellation. -/
theorem ownerCancelExpiredPublic_shape (senderO user : Address) (bn : Nat)
    (t t' : State) (h : ownerCancelExpiredPublic senderO user bn t = Except.ok t') :
    t'.publicEscrow user = 0 ∧ (t'.publicCommits user).hash = 0 ∧
    t'.balance = t.balance - t.publicEscrow user := by
  unfold ownerCancelExpiredPublic at h
  split at h
  · simp at h
  · split at h
    · simp at h
    · split at h
      · simp at h
      · split at h
        · simp at h
        · injection h with he
          subst he
          refine ⟨?_, ?_, rfl⟩
          · show upd t.publicEscrow user 0 user = 0
            rw [upd_same]
          · show (upd t.publicCommits user ⟨0, 0⟩ user).hash = 0
            rw [upd_same]

/-- C5 counterexample: committing in the public phase with commit hash
`bytes32(0)` escrows `MINT_PRICE` while the stored commitment does not count
as live, refuting `escrow[addr] > 0` iff a live commitment exists. -/
theorem escrow_without_live_commitment :
    0 < (run envA (initState 9 8 []) trZeroHashCommit).publicEscrow 1 ∧
    ((run envA (initState 9 8 []) trZeroHashCommit).publicCommits 1).hash = 0 := by
  constructor <;> decide

/-- C5 amended: in every history whose public commits all carry a nonzero
commit hash, escrow is positive exactly under a live commitment and then
equals `MINT_PRICE`; every cancel and every successful reveal zeroes
commitment and escrow in the same transaction, and a cancel refunds exactly
the escrow held at that moment. -/
theorem escrow_conservation_nonzero_hash (env : HashEnv) (deployer : Address)
    (root : B32) (cs : List (Address × Nat)) (ops : List Op)
    (hops : ∀ op ∈ ops, nonzeroCommit op) :
    (∀ a, (0 < (run env (initState deployer root cs) ops).publicEscrow a ↔
        ((run env (initState deployer root cs) ops).publicCommits a).hash ≠ 0) ∧
      (((run env (initState deployer root cs) ops).publicCommits a).hash ≠ 0 →
        (run env (initState deployer root cs) ops).publicEscrow a = MINT_PRICE)) ∧
    (∀ (sender : Address) (t t' : State),
      cancelPublicCommit sender t = Except.ok t' →
      t'.publicEscrow sender = 0 ∧ (t'.publicCommits sender).hash = 0 ∧
      t'.balance = t.balance - t.publicEscrow sender) ∧
    (∀ (senderO user : Address) (bn : Nat) (t t' : State),
      ownerCancelExpiredPublic senderO user bn t = Except.ok t' →
      t'.publicEscrow user = 0 ∧ (t'.publicCommits user).hash = 0 ∧
      t'.balance = t.balance - t.publicEscrow user) ∧
    (∀ (committer recipient : Address) (bn : Nat) (pbh secret : B32)
       (t t' : State), mintFor env committer recipient bn pbh secret t = Except.ok t' →
      t'.publicEscrow committer = 0 ∧ (t'.publicCommits committer).hash = 0) := by
  refine ⟨run_escrowInv env (initState deployer root cs) ops
      (escrowInv_init deployer root cs) hops,
    cancelPublicCommit_shape, ownerCancelExpiredPublic_shape, ?_⟩
  intro committer recipient bn pbh secret t t' h
  exact mintForImpl_consumes env committer recipient bn pbh secret t t' h

/-- Witness for the amended C5 on a trace with one well-formed public commit. -/
theorem escrow_conservation_nonzero_hash_witness :
    (∀ a, (0 < (run envA (initState 9 8 []) trPublicCommit).publicEscrow a ↔
        ((run envA (initState 9 8 []) trPublicCommit).publicCommits a).hash ≠ 0) ∧
      (((run envA (initState 9 8 []) trPublicCommit).publicCommits a).hash ≠ 0 →
        (run envA (initState 9 8 []) trPublicCommit).publicEscrow a = MINT_PRICE)) ∧
    (∀ (sender : Address) (t t' : State),
      cancelPublicCommit sender t = Except.ok t' →
      t'.publicEscrow sender = 0 ∧ (t'.publicCommits sender).hash = 0 ∧
      t'.balance = t.balance - t.publicEscrow sender) ∧
    (∀ (senderO user : Address) (bn : Nat) (t t' : State),
      ownerCancelExpiredPublic senderO user bn t = Except.ok t' →
      t'.publicEscrow user = 0 ∧ (t'.publicCommits user).hash = 0 ∧
      t'.balance = t.balance - t.publicEscrow user) ∧
    (∀ (committer recipient : Address) (bn : Nat) (pbh secret : B32)
       (t t' : State), mintFor envA committer recipient bn pbh secret t = Except.ok t' →
      t'.publicEscrow committer = 0 ∧ (t'.publicCommits committer).hash = 0) :=
  escrow_conservation_nonzero_hash envA 9 8 [] trPublicCommit
    (by
      intro op hop
      fin_cases hop
      · exact trivial
      · exact (by decide : (6 : Nat) ≠ 0))

/-! Payment flow accounting (claim C6). -/

/-- Flow invariant: everything ever released, plus what is still held, is
bounded by everything ever received. -/
def PayInv (s : State) : Prop :=
  s.totalReleased + s.balance ≤ s.totalReceived

theorem payInv_congr {s s' : State} (h : PayInv s)
    (h1 : s'.totalReleased = s.totalReleased) (h2 : s'.balance = s.balance)
    (h3 : s'.totalReceived = s.totalReceived) : PayInv s' := by
  unfold PayInv at *
  omega

theorem step_payInv (env : HashEnv) (s : State) (op : Op) (h : PayInv s) :
    PayInv (exec env s op) := by
  unfold exec
  cases hstep : step env s op with
  | error e => exact h
  | ok s' =>
    cases op with
    | setSaleState sender ns =>
      simp only [step] at hstep
      unfold setSaleState at hstep
      split at hstep
      · simp at hstep
      · injection hstep with he
        subst he
        exact payInv_congr h rfl rfl rfl
    | setUseBitmap sender b =>
      simp only [step] at hstep
      unfold setUseBitmap at hstep
      split at hstep
      · simp at hstep
      · injection hstep with he
        subst he
        exact payInv_congr h rfl rfl rfl
    | commitAirdrop sender bn ch =>
      simp only [step] at hstep
      unfold commitAirdrop at hstep
      split at hstep
      · simp at hstep
      · split at hstep
        · simp at hstep
        · injection hstep with he
          subst he
          exact payInv_congr h rfl rfl rfl
    | revealAirdrop sender bn pbh index secret proof =>
      simp only [step] at hstep
      unfold revealAirdrop at hstep
      split at hstep
      · simp at hstep
      · split at hstep
        · simp at hstep
        · split at hstep
          · simp at hstep
          · split at hstep
            · simp at hstep
            · split at hstep
              · simp at hstep
              · split at hstep
                · simp at hstep
                · split at hstep
                  · simp at hstep
                  · rename_i s1 heq
                    obtain ⟨-, hs1⟩ := claimCheckSet_ok_shape index s s1 heq
                    subst hs1
                    rw [mintRandom_ok_iff] at hstep
                    obtain ⟨-, -, -, rfl⟩ := hstep
                    have hframe := claimStore_frame index s
                    exact payInv_congr h
                      hframe.2.2.2.2.2.2.2.2.2.2.2.2.1
                      hframe.2.2.2.2.2.2.2.2.2.2.1
                      hframe.2.2.2.2.2.2.2.2.2.2.2.2.2
    | commitPublic sender bn v ch =>
      simp only [step] at hstep
      unfold commitPublic at hstep
      split at hstep
      · simp at hstep
      · split at hstep
        · simp at hstep
        · split at hstep
          · simp at hstep
          · injection hstep with he
            subst he
            show s.totalReleased + (s.balance + v) ≤ s.totalReceived + v
            unfold PayInv at h
            omega
    | mintFor sender recipient bn pbh secret =>
      simp only [step] at hstep
      unfold mintFor mintForImpl at hstep
      split at hstep
      · simp at hstep
      · split at hstep
        · simp at hstep
        · split at hstep
          · simp at hstep
          · split at hstep
            · simp at hstep
            · split at hstep
              · simp at hstep
              · split at hstep
                · simp at hstep
                · split at hstep
                  · simp at hstep
                  · rw [mintRandom_ok_iff] at hstep
                    obtain ⟨-, -, -, rfl⟩ := hstep
                    exact payInv_congr h rfl rfl rfl
    | cancelAirdropCommit sender =>
      simp only [step] at hstep
      unfold cancelAirdropCommit at hstep
      split at hstep
      · simp at hstep
      · injection hstep with he
        subst he
        exact payInv_congr h rfl rfl rfl
    | ownerCancelExpiredAirdrop sender user bn =>
      simp only [step] at hstep
      unfold ownerCancelExpiredAirdrop at hstep
      split at hstep
      · simp at hstep
      · split at hstep
        · simp at hstep
        · split at hstep
          · simp at hstep
          · injection hstep with he
            subst he
            exact payInv_congr h rfl rfl rfl
    | cancelPublicCommit sender =>
      simp only [step] at hstep
      unfold cancelPublicCommit at hstep
      split at hstep
      · simp at hstep
      · split at hstep
        · simp at hstep
        · injection hstep with he
          subst he
          show s.totalReleased + (s.balance - s.publicEscrow sender)
            ≤ s.totalReceived
          unfold PayInv at h
          omega
    | ownerCancelExpiredPublic sender user bn =>
      simp only [step] at hstep
      unfold ownerCancelExpiredPublic at hstep
      split at hstep
      · simp at hstep
      · split at hstep
        · simp at hstep
        · split at hstep
          · simp at hstep
          · split at hstep
            · simp at hstep
            · injection hstep with he
              subst he
              show s.totalReleased + (s.balance - s.publicEscrow user)
                ≤ s.totalReceived
              unfold PayInv at h
              omega
    | distributeFunds sender =>
      simp only [step] at hstep
      unfold distributeFunds at hstep
      split at hstep
      · simp at hstep
      · split at hstep
        · simp at hstep
        · injection hstep with he
          subst he
          exact payInv_congr h rfl rfl rfl
    | withdraw sender =>
      simp only [step] at hstep
      unfold withdraw at hstep
      split at hstep
      · simp at hstep
      · split at hstep
        · simp at hstep
        · rename_i hnz hcov
          injection hstep with he
          subst he
          show s.totalReleased + s.withdrawBalance sender
              + (s.balance - s.withdrawBalance sender) ≤ s.totalReceived
          unfold PayInv at h
          omega
    | deposit amount =>
      simp only [step] at hstep
      unfold deposit at hstep
      injection hstep with he
      subst he
      show s.totalReleased + (s.balance + amount) ≤ s.totalReceived + amount
      unfold PayInv at h
      omega

theorem run_payInv (env : HashEnv) (s : State) (ops : List Op) (h : PayInv s) :
    PayInv (run env s ops) := by
  induction ops generalizing s with
  | nil => exact h
  | cons op ops ih => exact ih (exec env s op) (step_payInv env s op h)

/-- Exact payout shape of a successful `withdraw`. -/
theorem withdraw_shape (sender : Address) (t t' : State)
    (h : withdraw sender t = Except.ok t') :
    t.withdrawBalance sender ≤ t.balance ∧
    t'.releasedOf sender = t.releasedOf sender + t.withdrawBalance sender ∧
    t'.totalReleased = t.totalReleased + t.withdrawBalance sender ∧
    t'.balance = t.balance - t.withdrawBalance sender := by
  unfold withdraw at h
  split at h
  · simp at h
  · split at h
    · simp at h
    · rename_i hnz hcov
      injection h with he
      subst he
      refine ⟨by omega, ?_, rfl, rfl⟩
      show upd t.releasedOf sender
        (t.releasedOf sender + t.withdrawBalance sender) sender
        = t.releasedOf sender + t.withdrawBalance sender
      rw [upd_same]

/-- C6 counterexample: calling `distributeFunds` three times over the same
100-wei balance credits contributor 1 with 150 wei; after another 100-wei
receipt the withdrawal pays 150 wei although the pending-payment formula
`floor(totalReceivedEver * shares/totalShares) - released` computed
immediately before the call allows only 100. -/
theorem release_exceeds_pending_formula :
    (run envA (initState 9 8 [(1, 1), (2, 1)]) trOverDistribute).releasedOf 1
      = 150 ∧
    ((run envA (initState 9 8 [(1, 1), (2, 1)]) (List.take 5 trOverDistribute)).balance
        + (run envA (initState 9 8 [(1, 1), (2, 1)])
            (List.take 5 trOverDistribute)).totalReleased)
      * (run envA (initState 9 8 [(1, 1), (2, 1)])
          (List.take 5 trOverDistribute)).shares 1
      / (run envA (initState 9 8 [(1, 1), (2, 1)])
          (List.take 5 trOverDistribute)).totalShares
      - (run envA (initState 9 8 [(1, 1), (2, 1)])
          (List.take 5 trOverDistribute)).releasedOf 1 = 100 ∧
    (100 : Nat) < 150 := by
  refine ⟨by decide, by decide, by decide⟩

/-- C6 amended: the total actually released never exceeds the total ever
received (each withdrawal requires the balance to cover it), and a withdrawal
pays exactly the recorded `withdrawBalance` at the moment of the call — not
the pending-payment formula, which repeated `distributeFunds` calls can
overrun. -/
theorem splitter_released_bounded (env : HashEnv) (deployer : Address)
    (root : B32) (cs : List (Address × Nat)) (ops : List Op) :
    (run env (initState deployer root cs) ops).totalReleased
      ≤ (run env (initState deployer root cs) ops).totalReceived ∧
    (∀ (sender : Address) (t t' : State), withdraw sender t = Except.ok t' →
      t.withdrawBalance sender ≤ t.balance ∧
      t'.releasedOf sender = t.releasedOf sender + t.withdrawBalance sender ∧
      t'.totalReleased = t.totalReleased + t.withdrawBalance sender ∧
      t'.balance = t.balance - t.withdrawBalance sender) := by
  constructor
  · have hinv := run_payInv env (initState deployer root cs) ops
      (by unfold PayInv; simp [initState])
    unfold PayInv at hinv
    omega
  · exact withdraw_shape

/-- Witness for the amended C6 on the over-distribution trace. -/
theorem splitter_released_bounded_witness :
    (run envA (initState 9 8 [(1, 1), (2, 1)]) trOverDistribute).totalReleased
      ≤ (run envA (initState 9 8 [(1, 1), (2, 1)]) trOverDistribute).totalReceived ∧
    (∀ (sender : Address) (t t' : State), withdraw sender t = Except.ok t' →
      t.withdrawBalance sender ≤ t.balance ∧
      t'.releasedOf sender = t.releasedOf sender + t.withdrawBalance sender ∧
      t'.totalReleased = t.totalReleased + t.withdrawBalance sender ∧
      t'.balance = t.balance - t.withdrawBalance sender) :=
  splitter_released_bounded envA 9 8 [(1, 1), (2, 1)] trOverDistribute

/-! Rarity threshold facts (claim C9). -/

theorem rarityOf_eq_legendary (r : Nat) :
    rarityOf r = Rarity.Legendary ↔ r < 10 := by
  unfold rarityOf
  split_ifs <;> simp_all

theorem rarityOf_eq_rare (r : Nat) :
    rarityOf r = Rarity.Rare ↔ (10 ≤ r ∧ r < 500) := by
  unfold rarityOf
  split_ifs <;> simp_all

theorem rarityOf_eq_uncommon (r : Nat) :
    rarityOf r = Rarity.Uncommon ↔ (500 ≤ r ∧ r < 2500) := by
  unfold rarityOf
  split_ifs <;> simp_all
  all_goals omega

theorem rarityOf_eq_common (r : Nat) :
    rarityOf r = Rarity.Common ↔ 2500 ≤ r := by
  unfold rarityOf
  split_ifs <;> simp_all
  all_goals omega

/-- C9: the rarity tier is `rarityOf (keccak(entropy || "RARITY") mod 10000)`
with thresholds `< 10` Legendary, `< 500` Rare, `< 2500` Uncommon, else
Common, in that order; over the roll space `0..9999` exactly 10/490/2000/7500
rolls map to Legendary/Rare/Uncommon/Common; and every successful mint stores
exactly that tier for the assigned token id. -/
theorem rarity_distribution :
    (∀ roll, roll < 10 → rarityOf roll = Rarity.Legendary) ∧
    (∀ roll, 10 ≤ roll → roll < 500 → rarityOf roll = Rarity.Rare) ∧
    (∀ roll, 500 ≤ roll → roll < 2500 → rarityOf roll = Rarity.Uncommon) ∧
    (∀ roll, 2500 ≤ roll → rarityOf roll = Rarity.Common) ∧
    ((Finset.range 10000).filter (fun r => rarityOf r = Rarity.Legendary)).card
      = 10 ∧
    ((Finset.range 10000).filter (fun r => rarityOf r = Rarity.Rare)).card
      = 490 ∧
    ((Finset.range 10000).filter (fun r => rarityOf r = Rarity.Uncommon)).card
      = 2000 ∧
    ((Finset.range 10000).filter (fun r => rarityOf r = Rarity.Common)).card
      = 7500 ∧
    (∀ (env : HashEnv) (pbh : B32) (toAddr : Address) (secret : B32) (s : State),
      mintRoll env pbh toAddr secret s
        = env.keccakRarity (mintEntropy env pbh toAddr secret s) % 10000 ∧
      mintRoll env pbh toAddr secret s < 10000 ∧
      (mintResult env pbh toAddr secret s).tokenRarity
          (mintAssigned env pbh toAddr secret s)
        = rarityOf (mintRoll env pbh toAddr secret s)) := by
  have hL : (Finset.range 10000).filter (fun r => rarityOf r = Rarity.Legendary)
      = Finset.range 10 := by
    ext r
    simp only [Finset.mem_filter, Finset.mem_range, rarityOf_eq_legendary]
    omega
  have hR : (Finset.range 10000).filter (fun r => rarityOf r = Rarity.Rare)
      = Finset.Ico 10 500 := by
    ext r
    simp only [Finset.mem_filter, Finset.mem_range, rarityOf_eq_rare,
      Finset.mem_Ico]
    omega
  have hU : (Finset.range 10000).filter (fun r => rarityOf r = Rarity.Uncommon)
      = Finset.Ico 500 2500 := by
    ext r
    simp only [Finset.mem_filter, Finset.mem_range, rarityOf_eq_uncommon,
      Finset.mem_Ico]
    omega
  have hC : (Finset.range 10000).filter (fun r => rarityOf r = Rarity.Common)
      = Finset.Ico 2500 10000 := by
    ext r
    simp only [Finset.mem_filter, Finset.mem_range, rarityOf_eq_common,
      Finset.mem_Ico]
    omega
  refine ⟨fun roll h => (rarityOf_eq_legendary roll).mpr h,
    fun roll h1 h2 => (rarityOf_eq_rare roll).mpr ⟨h1, h2⟩,
    fun roll h1 h2 => (rarityOf_eq_uncommon roll).mpr ⟨h1, h2⟩,
    fun roll h => (rarityOf_eq_common roll).mpr h,
    by rw [hL, Finset.card_range],
    by rw [hR, Nat.card_Ico],
    by rw [hU, Nat.card_Ico],
    by rw [hC, Nat.card_Ico],
    ?_⟩
  intro env pbh toAddr secret s
  refine ⟨rfl, Nat.mod_lt _ (by omega), ?_⟩
  show upd s.tokenRarity (mintAssigned env pbh toAddr secret s)
      (rarityOf (mintRoll env pbh toAddr secret s))
      (mintAssigned env pbh toAddr secret s)
    = rarityOf (mintRoll env pbh toAddr secret s)
  rw [upd_same]

/-- Witness for C9 at concrete rolls and a concrete mint. -/
theorem rarity_distribution_witness :
    rarityOf 3 = Rarity.Legendary ∧ rarityOf 123 = Rarity.Rare ∧
    rarityOf 1234 = Rarity.Uncommon ∧ rarityOf 9999 = Rarity.Common ∧
    mintRoll envA 0 1 5 (initState 9 8 [])
      = envA.keccakRarity (mintEntropy envA 0 1 5 (initState 9 8 [])) % 10000 :=
  ⟨rarity_distribution.1 3 (by decide),
   rarity_distribution.2.1 123 (by decide) (by decide),
   rarity_distribution.2.2.1 1234 (by decide) (by decide),
   rarity_distribution.2.2.2.1 9999 (by decide),
   (rarity_distribution.2.2.2.2.2.2.2.2 envA 0 1 5 (initState 9 8 [])).1⟩

end AdvancedNFT

namespace SimpleWallet

open AdvancedNFT in
/-- Abstract cryptography of the wallet: the EIP-712 typed digest over
`(from, nonce, to, value, keccak256(data))`, keccak over calldata bytes, and
ECDSA recovery from a digest and a signature. -/
structure WalletEnv where
  typedDigest : Nat → Nat → Nat → Nat → Nat → Nat
  keccakData : List Nat → Nat
  recover : Nat → List Nat → Nat

/-- Storage of `SimpleWallet`: the `Ownable` owner, the extra authorized
signers, and the per-signer nonces. -/
structure WalletState where
  owner : Nat
  isOwner : Nat → Bool
  nonces : Nat → Nat

/-- Revert reasons of `executeMetaTransaction`. -/
inductive WErr
  | UnauthorizedSigner | InvalidSignature | CallFailed
deriving DecidableEq, Repr

open AdvancedNFT in
/-- `executeMetaTransaction(from, to, value, data, signature)`.  The outcome
of the dispatched low-level call is the external parameter `callOk`; a failed
dispatch makes the whole call revert (`require(ok, ...)`), which the
`Except.error` result models — including rollback of the nonce increment
written before the dispatch. -/
def executeMetaTransaction (env : WalletEnv) (w : WalletState)
    (fromAddr toAddr : Nat) (value : Nat) (data sig : List Nat)
    (callOk : Bool) : Except WErr WalletState :=
  if ¬ (w.isOwner fromAddr = true ∨ fromAddr = w.owner) then
    Except.error WErr.UnauthorizedSigner
  else if env.recover
      (env.typedDigest fromAddr (w.nonces fromAddr) toAddr value
        (env.keccakData data)) sig ≠ fromAddr then
    Except.error WErr.InvalidSignature
  else if callOk then
    Except.ok { w with nonces := upd w.nonces fromAddr (w.nonces fromAddr + 1) }
  else Except.error WErr.CallFailed

open AdvancedNFT in
/-- Transaction semantics of one meta-transaction: a revert leaves the wallet
state unchanged. -/
def execMeta (env : WalletEnv) (w : WalletState) (fromAddr toAddr : Nat)
    (value : Nat) (data sig : List Nat) (callOk : Bool) : WalletState :=
  match executeMetaTransaction env w fromAddr toAddr value data sig callOk with
  | Except.ok w1 => w1
  | Except.error _ => w

/-- Concrete wallet cryptography for witnesses and counterexamples. -/
def envW : WalletEnv where
  typedDigest := fun f n t v dh =>
    (((f * 1000003 + n) * 1000003 + t) * 1000003 + v) * 1000003 + dh
  keccakData := fun l => l.foldl (fun a b => a * 257 + b + 1) 3
  recover := fun d sgn => if sgn = [d, 7] then 7 else 0

/-- Concrete wallet: owner `7`, authorized, fresh nonces. -/
def wInit : WalletState where
  owner := 7
  isOwner := fun a => a = 7
  nonces := fun _ => 0

/-- C7 counterexample: with a valid signature and a failing dispatched call,
the whole meta-transaction reverts with `CallFailed` and the signer's nonce is
NOT consumed (the pre-dispatch increment is rolled back with the revert), so
the identical payload reaches the dispatch again on resubmission instead of
being rejected as a replay. -/
theorem failed_dispatch_keeps_nonce :
    executeMetaTransaction envW wInit 7 3 0 []
      [envW.typedDigest 7 0 3 0 (envW.keccakData []), 7] false
      = Except.error WErr.CallFailed ∧
    (execMeta envW wInit 7 3 0 []
      [envW.typedDigest 7 0 3 0 (envW.keccakData []), 7] false).nonces 7 = 0 ∧
    executeMetaTransaction envW
      (execMeta envW wInit 7 3 0 []
        [envW.typedDigest 7 0 3 0 (envW.keccakData []), 7] false)
      7 3 0 [] [envW.typedDigest 7 0 3 0 (envW.keccakData []), 7] false
      = Except.error WErr.CallFailed := by
  refine ⟨by rfl, by decide, by rfl⟩

open AdvancedNFT in
/-- C7 amended: the nonce increment precedes the dispatch in program order,
but the outer transaction is atomic, so a failed dispatch fails with
`CallFailed` and rolls the increment back: the nonce is consumed exactly by
successful meta-transactions, and a failed dispatch propagates no partial
effects. -/
theorem nonce_rollback_on_failed_dispatch (env : WalletEnv) (w : WalletState)
    (fromAddr toAddr : Nat) (value : Nat) (data sig : List Nat)
    (hauth : w.isOwner fromAddr = true ∨ fromAddr = w.owner)
    (hsig : env.recover
      (env.typedDigest fromAddr (w.nonces fromAddr) toAddr value
        (env.keccakData data)) sig = fromAddr) :
    executeMetaTransaction env w fromAddr toAddr value data sig true
      = Except.ok { w with
          nonces := upd w.nonces fromAddr (w.nonces fromAddr + 1) } ∧
    executeMetaTransaction env w fromAddr toAddr value data sig false
      = Except.error WErr.CallFailed ∧
    execMeta env w fromAddr toAddr value data sig false = w := by
  have h2 : executeMetaTransaction env w fromAddr toAddr value data sig false
      = Except.error WErr.CallFailed := by
    unfold executeMetaTransaction
    rw [if_neg (not_not_intro hauth), if_neg (not_not_intro hsig),
      if_neg (by simp)]
  refine ⟨?_, h2, ?_⟩
  · unfold executeMetaTransaction
    rw [if_neg (not_not_intro hauth), if_neg (not_not_intro hsig), if_pos rfl]
  · unfold execMeta
    rw [h2]

open AdvancedNFT in
/-- Witness for the amended C7 on the concrete wallet. -/
theorem nonce_rollback_on_failed_dispatch_witness :
    executeMetaTransaction envW wInit 7 3 0 []
      [envW.typedDigest 7 0 3 0 (envW.keccakData []), 7] true
      = Except.ok { wInit with
          nonces := upd wInit.nonces 7 (wInit.nonces 7 + 1) } ∧
    executeMetaTransaction envW wInit 7 3 0 []
      [envW.typedDigest 7 0 3 0 (envW.keccakData []), 7] false
      = Except.error WErr.CallFailed ∧
    execMeta envW wInit 7 3 0 []
      [envW.typedDigest 7 0 3 0 (envW.keccakData []), 7] false = wInit :=
  nonce_rollback_on_failed_dispatch envW wInit 7 3 0 []
    [envW.typedDigest 7 0 3 0 (envW.keccakData []), 7]
    (Or.inl (by decide)) (by decide)

/-- C8: a signature computed over the digest embedding nonce `k` is rejected
with `InvalidSignature` (recovered-address mismatch) once `nonce[from]` has
advanced past `k`, even resubmitted byte-for-byte — the digest binds the
current nonce, a signature cannot be valid for the same signer on two
distinct digests, and the digest is injective in the nonce. -/
theorem meta_tx_replay_rejected (env : WalletEnv) (w : WalletState)
    (fromAddr toAddr : Nat) (value : Nat) (data sig : List Nat) (k : Nat)
    (callOk : Bool)
    (hauth : w.isOwner fromAddr = true ∨ fromAddr = w.owner)
    (hk : k < w.nonces fromAddr)
    (hsigOld : env.recover
      (env.typedDigest fromAddr k toAddr value (env.keccakData data)) sig
      = fromAddr)
    (hUnique : ∀ d d' : Nat, env.recover d sig = fromAddr →
      env.recover d' sig = fromAddr → d = d')
    (hInj : ∀ n n' : Nat,
      env.typedDigest fromAddr n toAddr value (env.keccakData data)
        = env.typedDigest fromAddr n' toAddr value (env.keccakData data) →
      n = n') :
    executeMetaTransaction env w fromAddr toAddr value data sig callOk
      = Except.error WErr.InvalidSignature := by
  have hne : env.recover
      (env.typedDigest fromAddr (w.nonces fromAddr) toAddr value
        (env.keccakData data)) sig ≠ fromAddr := by
    intro hcur
    have hd := hUnique _ _ hcur hsigOld
    have hnn := hInj _ _ hd
    omega
  unfold executeMetaTransaction
  rw [if_neg (not_not_intro hauth), if_pos hne]

/-- Witness for C8: the signature for nonce 0 is rejected once the nonce is 1. -/
theorem meta_tx_replay_rejected_witness :
    executeMetaTransaction envW
      { wInit with nonces := fun a => if a = 7 then 1 else 0 } 7 3 0 []
      [envW.typedDigest 7 0 3 0 (envW.keccakData []), 7] true
      = Except.error WErr.InvalidSignature :=
  meta_tx_replay_rejected envW
    { wInit with nonces := fun a => if a = 7 then 1 else 0 } 7 3 0 []
    [envW.typedDigest 7 0 3 0 (envW.keccakData []), 7] 0 true
    (Or.inl (by decide)) (by decide) (by decide)
    (by
      intro d d' h1 h2
      have h1' : (if [envW.typedDigest 7 0 3 0 (envW.keccakData []), 7]
          = [d, 7] then (7 : Nat) else 0) = 7 := h1
      have h2' : (if [envW.typedDigest 7 0 3 0 (envW.keccakData []), 7]
          = [d', 7] then (7 : Nat) else 0) = 7 := h2
      split at h1'
      · split at h2'
        · rename_i e1 e2
          rw [e1] at e2
          simpa using e2
        · simp at h2'
      · simp at h1')
    (by
      intro n n' h
      have h' : (((7 * 1000003 + n) * 1000003 + 3) * 1000003 + 0) * 1000003 + 3
          = (((7 * 1000003 + n') * 1000003 + 3) * 1000003 + 0) * 1000003 + 3 := h
      omega)

end SimpleWallet
